import Mathlib

/-!
Verification development for the multi-account chat ingestion, classification
and routing pipeline.  Python source files are embedded shallowly: dicts become
association lists or total functions (a `dict.get(k, default)` read is a total
function returning the default off the key set), Python `set` becomes `Finset`,
floats become `ℚ` (with `float("inf")` as `⊤ : WithTop ℚ`), and fallible code
returns `Except`/`Option`.  Definitions follow the corresponding Python
function bodies statement by statement; the source file and symbol are named
on each definition.
-/

deriving instance DecidableEq for Except

/-- Account identifier (`account_id : str` in the source). -/
abbrev AccountId := String

/-- Canonical numeric chat id (`chat_id : int`). -/
abbrev ChatId := Int

/-- `app/assignment.py`: `Assignment = Dict[str, Set[int]]`, embedded as an
insertion-ordered association list. -/
abbrev Assignment := List (AccountId × Finset ChatId)

/-- Python `d.get(a, set())` on an `Assignment` dict. -/
def Assignment.get (d : Assignment) (a : AccountId) : Finset ChatId :=
  match d.lookup a with
  | some s => s
  | none => ∅

/-- Key list of the dict. -/
def Assignment.keys (d : Assignment) : List AccountId := d.map Prod.fst

/-- `app/assignment.py::diff_assignments`: for each account in
`set(prev) | set(new)`, `adds[a] = new.get(a, set()) - prev.get(a, set())` and
`removes[a] = prev.get(a, set()) - new.get(a, set())`. -/
def diff_assignments (prev new : Assignment) : Assignment × Assignment :=
  let accounts := (prev.keys ++ new.keys).dedup
  (accounts.map (fun a => (a, new.get a \ prev.get a)),
   accounts.map (fun a => (a, prev.get a \ new.get a)))

/-- `app/assignment_store.py::AssignmentStore`: the Redis keys it touches,
as a state record.  `sets` models the per-account Redis sets
(`rt:assign:{account}`), `version` the `version` field of the meta hash
(`HINCRBY` semantics), `last_summary` the `last_summary` field. -/
structure RedisAssignState where
  sets : AccountId → Finset ChatId
  version : Int
  last_summary : Option String

/-- `AssignmentStore.write_all`: inside one transaction, for every account in
the assignment dict delete the old set and `SADD` the new members, then
`HINCRBY meta version 1` and, when `summary` is truthy, `HSET meta
last_summary summary`.  (The post-commit pub/sub notification carries no
state and is omitted.) -/
def AssignmentStore.write_all (st : RedisAssignState) (assignment : Assignment)
    (summary : Option String) : RedisAssignState :=
  { sets := fun a => if a ∈ assignment.keys then assignment.get a else st.sets a
    version := st.version + 1
    last_summary :=
      match summary with
      | some s => if s ≠ "" then some s else st.last_summary
      | none => st.last_summary }

/-- Stable insertion step: place `x` before the first element `y` with
`le x y` (Python's stable `sorted` keeps the earlier element first on ties,
which this insertion realizes for a total preorder `le`). -/
def pyInsort {α : Type} (le : α → α → Bool) (x : α) : List α → List α
  | [] => [x]
  | y :: ys => if le x y then x :: y :: ys else y :: pyInsort le x ys

/-- Stable sort modelling Python `sorted(l, key=...)` (as `le` on elements). -/
def pySorted {α : Type} (le : α → α → Bool) : List α → List α
  | [] => []
  | x :: xs => pyInsort le x (pySorted le xs)

/-- Python `min(xs, key=key)` over a nonempty list `x :: xs` with strict
comparison `lt` on keys: the fold keeps the first element attaining the
minimal key. -/
def pyMinKey {α β : Type} (lt : β → β → Bool) (key : α → β) (x : α) (xs : List α) : α :=
  xs.foldl (fun acc y => if lt (key y) (key acc) then y else acc) x

/-- `app/assignment.py::assign_channels_balanced`, local `weight`:
`float(channel_weight.get(c, 1.0))`. -/
def weightOf (channel_weight : ChatId → Option ℚ) (c : ChatId) : ℚ :=
  (channel_weight c).getD 1

/-- Local `eligible_count`: `len(eligible.get(c, []))`. -/
def eligible_count (eligible : ChatId → List AccountId) (c : ChatId) : Nat :=
  (eligible c).length

/-- Sort key comparison for `sorted(pool, key=lambda c: (eligible_count(c),
-weight(c)))`: ascending lexicographic on `(eligible_count c, -weight c)`. -/
def solverSortLe (eligible : ChatId → List AccountId) (channel_weight : ChatId → Option ℚ)
    (c d : ChatId) : Bool :=
  decide (eligible_count eligible c < eligible_count eligible d) ||
    (decide (eligible_count eligible c = eligible_count eligible d) &&
      decide (-(weightOf channel_weight c) ≤ -(weightOf channel_weight d)))

/-- Python tuple `<` on the `(load, residual_flex)` selection key. -/
def loadKeyLt (p q : ℚ × Nat) : Bool :=
  decide (p.1 < q.1) || (decide (p.1 = q.1) && decide (p.2 < q.2))

/-- The mutable locals `load` and `assigned` of `assign_channels_balanced`. -/
structure SolverState where
  load : AccountId → ℚ
  assigned : AccountId → Finset ChatId

/-- Local `residual_flex(a)`: the number of `cc` in `channels_sorted` with
`cc not in assigned[a]` and `a in eligible.get(cc, [])`. -/
def residual_flex (eligible : ChatId → List AccountId) (channels_sorted : List ChatId)
    (st : SolverState) (a : AccountId) : Nat :=
  (channels_sorted.filter
    (fun cc => decide (cc ∉ st.assigned a) && decide (a ∈ eligible cc))).length

/-- Local `candidates`: eligible accounts whose load still fits the weight
under `account_capacity.get(a, float("inf"))`. -/
def solverCandidates (eligible : ChatId → List AccountId)
    (channel_weight : ChatId → Option ℚ) (account_capacity : AccountId → WithTop ℚ)
    (st : SolverState) (c : ChatId) : List AccountId :=
  (eligible c).filter
    (fun a => decide (((st.load a + weightOf channel_weight c : ℚ) : WithTop ℚ) ≤
      account_capacity a))

/-- Local `chosen = min(candidates, key=lambda a: (load[a], residual_flex(a)))`
(`none` when `candidates` is empty and the loop `continue`s). -/
def chosenFor (eligible : ChatId → List AccountId) (channel_weight : ChatId → Option ℚ)
    (account_capacity : AccountId → WithTop ℚ) (channels_sorted : List ChatId)
    (st : SolverState) (c : ChatId) : Option AccountId :=
  match solverCandidates eligible channel_weight account_capacity st c with
  | [] => none
  | a :: rest =>
    some (pyMinKey loadKeyLt
      (fun a => (st.load a, residual_flex eligible channels_sorted st a)) a rest)

/-- One iteration of the `for c in channels_sorted` loop body. -/
def solverStep (eligible : ChatId → List AccountId) (channel_weight : ChatId → Option ℚ)
    (account_capacity : AccountId → WithTop ℚ) (channels_sorted : List ChatId)
    (st : SolverState) (c : ChatId) : SolverState :=
  match chosenFor eligible channel_weight account_capacity channels_sorted st c with
  | none => st
  | some chosen =>
      { load := fun a => if a = chosen then st.load a + weightOf channel_weight c else st.load a
        assigned := fun a => if a = chosen then insert c (st.assigned a) else st.assigned a }

/-- Folding the loop body over a list of channels. -/
def solverRun (eligible : ChatId → List AccountId) (channel_weight : ChatId → Option ℚ)
    (account_capacity : AccountId → WithTop ℚ) (channels_sorted : List ChatId)
    (l : List ChatId) (st : SolverState) : SolverState :=
  l.foldl (solverStep eligible channel_weight account_capacity channels_sorted) st

/-- Local `pool` and `channels_sorted` of `assign_channels_balanced`. -/
def solverSorted (channels : List ChatId) (eligible : ChatId → List AccountId)
    (channel_weight : ChatId → Option ℚ) : List ChatId :=
  pySorted (solverSortLe eligible channel_weight)
    (channels.filter (fun c => decide (eligible c ≠ [])))

/-- `app/assignment.py::assign_channels_balanced`.  Dict reads with defaults
(`eligible.get(c, [])`, `channel_weight.get(c, 1.0)`,
`account_capacity.get(a, float("inf"))`) are modelled as total functions;
`float("inf")` is `⊤ : WithTop ℚ`. -/
def assign_channels_balanced (channels : List ChatId) (eligible : ChatId → List AccountId)
    (channel_weight : ChatId → Option ℚ) (accounts : List AccountId)
    (account_capacity : AccountId → WithTop ℚ) : Assignment :=
  let channels_sorted := solverSorted channels eligible channel_weight
  let finalState := solverRun eligible channel_weight account_capacity channels_sorted
    channels_sorted ⟨fun _ => 0, fun _ => ∅⟩
  accounts.map (fun a => (a, finalState.assigned a))

/-- Loop invariant of `assign_channels_balanced`, relative to the list of
channels still `pending`: assigned chats never reappear in the pending list,
every assigned chat is assigned to an eligible account, the per-account sets
are pairwise disjoint, and each account's `load` is the total weight of its
assigned set. -/
def SolverInv (e : ChatId → List AccountId) (cw : ChatId → Option ℚ)
    (pending : List ChatId) (st : SolverState) : Prop :=
  (∀ a x, x ∈ st.assigned a → x ∉ pending) ∧
  (∀ a x, x ∈ st.assigned a → a ∈ e x) ∧
  (∀ a b, a ≠ b → Disjoint (st.assigned a) (st.assigned b)) ∧
  (∀ a, st.load a = (st.assigned a).sum (weightOf cw))

/-- The `load` dict at the moment the loop of `assign_channels_balanced`
considers channel `c`: the state after folding the sorted prefix strictly
before `c`. -/
def loadsBefore (channels : List ChatId) (e : ChatId → List AccountId)
    (cw : ChatId → Option ℚ) (cap : AccountId → WithTop ℚ) (c : ChatId) :
    AccountId → ℚ :=
  (solverRun e cw cap (solverSorted channels e cw)
    ((solverSorted channels e cw).takeWhile (fun d => decide (d ≠ c)))
    ⟨fun _ => 0, fun _ => ∅⟩).load

/-- Incoming Telegram event as seen by the realtime handler
(`workers/realtime_worker.py::_handler`): `event.chat_id`, `event.message.id`,
`event.message.to_dict()` (kept opaque), and the usernames Telethon may have
attached to `event.message.sender` / `event.message.chat`. -/
structure TgEvent where
  chat_id : Option Int
  message_id : Int
  message_dict : String
  msg_sender_username : Option String
  msg_chat_username : Option String

/-- The JSON payload built by `_handler`. -/
structure RtPayload where
  event : String
  chat_id : Option Int
  message_id : Int
  message : String
  sender_username : Option String
  chat_username : Option String
  deriving DecidableEq

/-- A publish on the fanout exchange with its delivery mode
(`_publish_message`: `DeliveryMode.PERSISTENT`). -/
structure RtPublish where
  exchange : String
  persistent : Bool
  payload : RtPayload
  deriving DecidableEq

/-- Python `s.startswith(p)`, via a structurally recursive character check
(kernel-computable, unlike `String.startsWith`). -/
def pyStartsWith (s p : String) : Bool := p.toList.isPrefixOf s.toList

/-- Python `s.strip()` (whitespace strip on both ends). -/
def pyStrip (s : String) : String :=
  String.mk (((s.toList.dropWhile Char.isWhitespace).reverse.dropWhile
    Char.isWhitespace).reverse)

/-- `su if su.startswith("@") else f"@{su}"` guarded by
`isinstance(su, str) and su`. -/
def atHandle (s : Option String) : Option String :=
  match s with
  | some u => if u ≠ "" then some (if pyStartsWith u "@" then u else "@" ++ u) else none
  | none => none

/-- `workers/realtime_worker.py::_handler`: the whole body runs under
`if allowed_ids:`; inside it, events with no chat id or a chat id outside
`allowed_ids` return early, otherwise the payload is built and published
persistently on the realtime fanout exchange.  Returns the publish action, or
`none` when the event is dropped. -/
def realtimeHandler (exchangeName : String) (allowed_ids : Finset Int)
    (ev : TgEvent) : Option RtPublish :=
  if allowed_ids.Nonempty then
    match ev.chat_id with
    | none => none
    | some cid =>
      if cid ∈ allowed_ids then
        some
          { exchange := exchangeName
            persistent := true
            payload :=
              { event := "NewMessage"
                chat_id := some cid
                message_id := ev.message_id
                message := ev.message_dict
                sender_username := atHandle ev.msg_sender_username
                chat_username := atHandle ev.msg_chat_username } }
      else none
  else none

/-- A Telegram message yielded by `client.iter_messages` in
`workers/historical_worker.py::_async_backfill_chat` (dates as integer
timestamps; `to_dict()` kept opaque). -/
structure TgHistMsg where
  id : Int
  date : Int
  chat_id : Int
  sender_id : Option Int
  text : Option String
  dict : String
  deriving DecidableEq

/-- Payload published per message in the `backfill_via_rabbit` branch. -/
structure HistPayload where
  event : String
  chat_id : Int
  message_id : Int
  message : String
  chat_username : Option String
  deriving DecidableEq

/-- A row built by `workers/historical_worker.py::_save_messages_batch`. -/
structure HistRow where
  chat_id : Int
  message_id : Int
  sender_id : Option Int
  sender_username : Option String
  chat_username : Option String
  text : Option String
  message_date : Int
  deriving DecidableEq

/-- Observable effects of one backfill run: a persistent publish on the
historical fanout exchange, or a direct relational-store batch insert. -/
inductive BackfillEffect
  | publish (exchange : String) (persistent : Bool) (payload : HistPayload)
  | saveBatch (rows : List HistRow)
  deriving DecidableEq

/-- `_save_messages_batch` username normalization:
`chat_username if chat_username.startswith("@") else f"@{chat_username}"`
guarded by `isinstance(..., str) and chat_username.strip()`. -/
def normChatUsername (chat_username : Option String) : Option String :=
  match chat_username with
  | some s => if pyStrip s ≠ "" then some (if pyStartsWith s "@" then s else "@" ++ s)
      else none
  | none => none

/-- The row `_save_messages_batch` builds for one message. -/
def histRowOf (chat_username : Option String) (m : TgHistMsg) : HistRow :=
  { chat_id := m.chat_id
    message_id := m.id
    sender_id := m.sender_id
    sender_username := none
    chat_username := normChatUsername chat_username
    text := m.text
    message_date := m.date }

/-- The payload published for one message in the via-rabbit branch. -/
def histPayloadOf (chat_id_numeric : Int) (norm_target_username : Option String)
    (m : TgHistMsg) : HistPayload :=
  { event := "HistoricalMessage"
    chat_id := chat_id_numeric
    message_id := m.id
    message := m.dict
    chat_username := norm_target_username }

/-- Incremental stop test: `last_known_message_id is not None and
int(m.id) <= int(last_known_message_id)`. -/
def watermarkStop (last_known_message_id : Option Int) (mid : Int) : Bool :=
  match last_known_message_id with
  | some wm => decide (mid ≤ wm)
  | none => false

/-- The message loop of `_async_backfill_chat` (steps 2–3 plus the final
flush): iterate newest-to-oldest, stop at the watermark
(`m.id ≤ last_known_message_id`) or — with no watermark — at the `days`
horizon (`m.date < from_dt`); publish each message immediately when
`backfill_via_rabbit`, otherwise buffer rows and flush every `batch_size`,
with a final `_save_messages_batch` for the remainder. -/
def backfillLoop (via_rabbit : Bool) (exchangeName : String) (chat_id_numeric : Int)
    (norm_target_username : Option String) (last_known_message_id : Option Int)
    (from_dt : Int) (batch_size : Nat) (buffer : List TgHistMsg) :
    List TgHistMsg → List BackfillEffect
  | [] =>
    if ¬ via_rabbit ∧ buffer ≠ [] then
      [.saveBatch (buffer.map (histRowOf norm_target_username))]
    else []
  | m :: rest =>
    if watermarkStop last_known_message_id m.id then
      if ¬ via_rabbit ∧ buffer ≠ [] then
        [.saveBatch (buffer.map (histRowOf norm_target_username))]
      else []
    else if last_known_message_id = none ∧ m.date < from_dt then
      if ¬ via_rabbit ∧ buffer ≠ [] then
        [.saveBatch (buffer.map (histRowOf norm_target_username))]
      else []
    else if via_rabbit then
      .publish exchangeName true (histPayloadOf chat_id_numeric norm_target_username m) ::
        backfillLoop via_rabbit exchangeName chat_id_numeric norm_target_username
          last_known_message_id from_dt batch_size buffer rest
    else
      if (buffer ++ [m]).length ≥ batch_size then
        .saveBatch ((buffer ++ [m]).map (histRowOf norm_target_username)) ::
          backfillLoop via_rabbit exchangeName chat_id_numeric norm_target_username
            last_known_message_id from_dt batch_size [] rest
      else
        backfillLoop via_rabbit exchangeName chat_id_numeric norm_target_username
          last_known_message_id from_dt batch_size (buffer ++ [m]) rest

/-- The effect trace of one `_async_backfill_chat` run over the messages the
chat iterator yields (buffer starts empty). -/
def backfillEffects (via_rabbit : Bool) (exchangeName : String) (chat_id_numeric : Int)
    (norm_target_username : Option String) (last_known_message_id : Option Int)
    (from_dt : Int) (batch_size : Nat) (msgs : List TgHistMsg) : List BackfillEffect :=
  backfillLoop via_rabbit exchangeName chat_id_numeric norm_target_username
    last_known_message_id from_dt batch_size [] msgs

/-- Python `s.lower()` (per-character). -/
def pyLower (s : String) : String := String.mk (s.toList.map Char.toLower)

/-- `app/classification.py::DomainType` enumeration. -/
inductive DomainType
  | CONSTRUCTION_AND_REPAIR
  | RENTAL_OF_REAL_ESTATE
  | PURCHASE_OF_REAL_ESTATE
  | REAL_ESTATE_AGENT
  | LAW
  | SERVICES
  | AUTO
  | MARKETPLACE
  | SOCIAL_CAPITAL
  | OPERATIONAL_MANAGEMENT
  | REPUTATION
  | NONE
  deriving DecidableEq

/-- `DomainType.value` (the enum's string value). -/
def domainName : DomainType → String
  | .CONSTRUCTION_AND_REPAIR => "CONSTRUCTION_AND_REPAIR"
  | .RENTAL_OF_REAL_ESTATE => "RENTAL_OF_REAL_ESTATE"
  | .PURCHASE_OF_REAL_ESTATE => "PURCHASE_OF_REAL_ESTATE"
  | .REAL_ESTATE_AGENT => "REAL_ESTATE_AGENT"
  | .LAW => "LAW"
  | .SERVICES => "SERVICES"
  | .AUTO => "AUTO"
  | .MARKETPLACE => "MARKETPLACE"
  | .SOCIAL_CAPITAL => "SOCIAL_CAPITAL"
  | .OPERATIONAL_MANAGEMENT => "OPERATIONAL_MANAGEMENT"
  | .REPUTATION => "REPUTATION"
  | .NONE => "NONE"

/-- Output of `DomainRouter._parse_chat_id_value`: an int destination, the
`"muted"` sentinel, or `None` (use fallback). -/
inductive ChatVal
  | muted
  | null
  | cid (n : Int)
  deriving DecidableEq

/-- A parsed entry of a `location_overrides` list (city required and
normalized; district optional). -/
structure LocOverride where
  city : String
  district : Option String
  chat_id : ChatVal
  deriving DecidableEq

/-- A parsed subcategory entry: scalar value or
`{default, location_overrides}`. -/
inductive SubcatCfg
  | scalarV (v : ChatVal)
  | structured (default : ChatVal) (location_overrides : List LocOverride)
  deriving DecidableEq

/-- A parsed domain entry: scalar value or
`{default, location_overrides, subcategories}`. -/
inductive DomainCfg
  | scalarV (v : ChatVal)
  | structured (default : ChatVal) (location_overrides : List LocOverride)
      (subcategories : List (String × SubcatCfg))
  deriving DecidableEq

/-- A normalized source location (`_normalize_locations` output: lowercase,
stripped, empty fields dropped, never both empty). -/
structure NormLoc where
  city : Option String
  district : Option String
  deriving DecidableEq

/-- The loaded state of `app/domain_router.py::DomainRouter`. -/
structure RouterCfg where
  domains_map : List (String × DomainCfg)
  muted_subcategories : List String
  fallback_chat_id : Option Int

/-- `DomainRouter._normalize_location_value`. -/
def normalize_location_value (v : Option String) : Option String :=
  match v with
  | none => none
  | some s =>
    let t := pyLower (pyStrip s)
    if t = "" then none else some t

/-- `DomainRouter._normalize_locations` over `{city, district}` pairs. -/
def normalize_locations (locations : List (Option String × Option String)) :
    List NormLoc :=
  locations.filterMap (fun loc =>
    let city := normalize_location_value loc.1
    let district := normalize_location_value loc.2
    if city = none ∧ district = none then none else some ⟨city, district⟩)

/-- `DomainRouter._resolve_chat_id`: `(chat_id, should_use_fallback)`. -/
def resolve_chat_id (v : ChatVal) : Option Int × Bool :=
  match v with
  | .muted => (none, false)
  | .cid n => (some n, false)
  | .null => (none, true)

/-- `DomainRouter._match_location_override`: exact `(city, district)` pass
first, then city-only pass; on a hit, resolve the override's value. -/
def match_location_override (overrides : List LocOverride)
    (locations : List NormLoc) : Bool × Option Int × Bool :=
  if overrides = [] ∨ locations = [] then (false, none, false)
  else
    match locations.findSome? (fun loc =>
      match loc.city, loc.district with
      | some city, some district =>
        overrides.find? (fun rule =>
          decide (rule.city = city) && decide (rule.district = some district))
      | _, _ => none) with
    | some rule => (true, (resolve_chat_id rule.chat_id).1, (resolve_chat_id rule.chat_id).2)
    | none =>
      match locations.findSome? (fun loc =>
        match loc.city with
        | some city =>
          overrides.find? (fun rule =>
            decide (rule.city = city) && decide (rule.district = none))
        | none => none) with
      | some rule =>
        (true, (resolve_chat_id rule.chat_id).1, (resolve_chat_id rule.chat_id).2)
      | none => (false, none, false)

/-- Append semantics shared by every resolution site of
`get_chat_ids_for_domains`: `if resolved is not None: append(resolved)
elif should_use_fallback and fallback is not None: append(fallback)`. -/
def emitResolved (cfg : RouterCfg) (p : Option Int × Bool) : List Int :=
  match p.1 with
  | some n => [n]
  | none =>
    if p.2 then
      match cfg.fallback_chat_id with
      | some fb => [fb]
      | none => []
    else []

/-- A classified domain with its subcategories (`DomainInfo` objects as passed
by `_persist_batch`). -/
structure DomainInfoM where
  domain : DomainType
  subcategories : List String
  deriving DecidableEq

/-- The loop body of `DomainRouter.get_chat_ids_for_domains` for one
`DomainInfo`: global muted-subcategory check, then the structured entry
(first subcategory hit, its location overrides, the domain's location
overrides, subcategory value or `default`) or the scalar entry (missing keys
resolve as `None`, i.e. fallback). -/
def routeDomainInfo (cfg : RouterCfg) (normLocs : List NormLoc)
    (info : DomainInfoM) : List Int :=
  let subcategories := info.subcategories
  let domain_config := cfg.domains_map.lookup (domainName info.domain)
  if subcategories ≠ [] ∧
      subcategories.any (fun s => decide (s ∈ cfg.muted_subcategories)) then []
  else
    match domain_config with
    | some (DomainCfg.structured dflt dom_overrides subcats_cfg) =>
      let hit := subcategories.findSome? (fun s => subcats_cfg.lookup s)
      let subcategory_chat_id : ChatVal :=
        match hit with
        | none => .null
        | some (.scalarV v) => v
        | some (.structured d _) => d
      let subcategory_overrides : List LocOverride :=
        match hit with
        | some (.structured _ ovr) => ovr
        | _ => []
      if subcategory_chat_id = .muted then []
      else
        let subRes := if subcategory_overrides ≠ [] then
            match_location_override subcategory_overrides normLocs
          else (false, none, false)
        if subRes.1 then emitResolved cfg subRes.2
        else
          let domRes := if dom_overrides ≠ [] then
              match_location_override dom_overrides normLocs
            else (false, none, false)
          if domRes.1 then emitResolved cfg domRes.2
          else
            let chat_id_to_use :=
              if subcategory_chat_id ≠ .null then subcategory_chat_id else dflt
            emitResolved cfg (resolve_chat_id chat_id_to_use)
    | some (DomainCfg.scalarV v) => emitResolved cfg (resolve_chat_id v)
    | none => emitResolved cfg (resolve_chat_id .null)

/-- `DomainRouter.get_chat_ids_for_domains` over `DomainInfo` lists: empty
input short-circuits; otherwise each domain's contributions are appended in
order (duplicates preserved). -/
def get_chat_ids_for_domains (cfg : RouterCfg) (domains : List DomainInfoM)
    (locations : List (Option String × Option String)) : List Int :=
  if domains = [] then []
  else (domains.map (routeDomainInfo cfg (normalize_locations locations))).flatten

/-- Python `s.split(sep)` on a single-character separator (full split,
keeping empty chunks). -/
def splitChar (sep : Char) : List Char → List (List Char)
  | [] => [[]]
  | c :: rest =>
    if c = sep then [] :: splitChar sep rest
    else
      match splitChar sep rest with
      | [] => [[c]]
      | g :: gs => (c :: g) :: gs

/-- Python `s.split(sep, maxsplit)` on a single-character separator. -/
def splitCharLimit (sep : Char) : Nat → List Char → List (List Char)
  | _, [] => [[]]
  | 0, cs => [cs]
  | Nat.succ n, c :: rest =>
    if c = sep then [] :: splitCharLimit sep n rest
    else
      match splitCharLimit sep (Nat.succ n) rest with
      | [] => [[c]]
      | g :: gs => (c :: g) :: gs

def pySplit (sep : Char) (s : String) : List String :=
  (splitChar sep s.toList).map String.mk

def pySplitLimit (sep : Char) (n : Nat) (s : String) : List String :=
  (splitCharLimit sep n s.toList).map String.mk

/-- Python `s.isdigit()` (ASCII digits). -/
def pyIsDigit (s : String) : Bool := s.toList ≠ [] && s.toList.all Char.isDigit

/-- Decimal value of a digit string. -/
def digitsToNat (cs : List Char) : Nat :=
  cs.foldl (fun acc c => acc * 10 + (c.toNat - 48)) 0

/-- `app/classification.py::IntentType` enumeration. -/
inductive IntentType
  | REQUEST
  | OFFER
  | RECOMMENDATION
  | COMPLAINT
  | INFO
  | OTHER
  deriving DecidableEq

/-- `app/classification.py::INTENT_CODE_TO_VALUE` dict. -/
def INTENT_CODE_TO_VALUE : List (Nat × IntentType) :=
  [(1, .REQUEST), (2, .OFFER), (3, .RECOMMENDATION), (4, .COMPLAINT),
   (5, .INFO), (6, .OTHER)]

/-- `app/classification.py::DOMAIN_CODE_TO_VALUE` dict
(`DOMAIN_VALUE_TO_CODE[DomainType.NONE]` is `12`). -/
def DOMAIN_CODE_TO_VALUE : List (Nat × DomainType) :=
  [(1, .CONSTRUCTION_AND_REPAIR), (2, .RENTAL_OF_REAL_ESTATE),
   (3, .PURCHASE_OF_REAL_ESTATE), (4, .REAL_ESTATE_AGENT), (5, .LAW),
   (6, .SERVICES), (7, .AUTO), (8, .MARKETPLACE), (9, .SOCIAL_CAPITAL),
   (10, .OPERATIONAL_MANAGEMENT), (11, .REPUTATION), (12, .NONE)]

/-- `app/classification.py::SUBCATEGORY_CODE_TO_VALUE` (per-domain dicts;
`NONE` has no subcategories). -/
def SUBCATEGORY_CODE_TO_VALUE (d : DomainType) : List (Nat × String) :=
  match d with
  | .CONSTRUCTION_AND_REPAIR =>
    [(1, "MAJOR_RENOVATION"), (2, "REPAIR_SERVICES"), (3, "SMALL_TOOLS_AND_MATERIALS")]
  | .RENTAL_OF_REAL_ESTATE =>
    [(1, "RENTAL_APARTMENT"), (2, "RENTAL_HOUSE"), (3, "RENTAL_PARKING"),
     (4, "RENTAL_STORAGE"), (5, "RENTAL_LAND")]
  | .PURCHASE_OF_REAL_ESTATE =>
    [(1, "PURCHASE_APARTMENT"), (2, "PURCHASE_HOUSE"), (3, "PURCHASE_PARKING"),
     (4, "PURCHASE_STORAGE"), (5, "PURCHASE_LAND")]
  | .REAL_ESTATE_AGENT => [(1, "AGENT")]
  | .LAW => [(1, "LAWYER")]
  | .SERVICES =>
    [(1, "BEAUTY_AND_HEALTH"), (2, "HOUSEHOLD_SERVICES"),
     (3, "CHILD_CARE_AND_EDUCATION"), (4, "DELIVERY_SERVICES"), (5, "TECH_REPAIR")]
  | .AUTO =>
    [(1, "AUTO_PURCHASE"), (2, "AUTO_PREMIUM_DETAILING"), (3, "AUTO_REPAIR"),
     (4, "AUTO_SERVICE_STATION")]
  | .MARKETPLACE =>
    [(1, "BUY_SELL_GOODS"), (2, "GIVE_AWAY"), (3, "HOMEMADE_FOOD"),
     (4, "BUYER_SERVICES")]
  | .SOCIAL_CAPITAL => [(1, "PARENTING"), (2, "HOBBY_AND_SPORT"), (3, "EVENTS")]
  | .OPERATIONAL_MANAGEMENT =>
    [(1, "LOST_AND_FOUND"), (2, "SECURITY"), (3, "LIVING_ENVIRONMENT"),
     (4, "MANAGEMENT_COMPANY_INTERACTION")]
  | .REPUTATION => [(1, "PERSONAL_BRAND"), (2, "COMPANIES_REPUTATION")]
  | .NONE => []

/-- `app/classification.py::_parse_int_code` (string inputs):
`value.strip().isdigit()` then `int(value.strip())`. -/
def parse_int_code (value : String) : Except String Nat :=
  if pyIsDigit (pyStrip value) then .ok (digitsToNat (pyStrip value).toList)
  else .error ("Invalid code value: " ++ value)

/-- `app/classification.py::_parse_code_list`: split on `,`, strip, drop
blanks, require digits. -/
def parse_code_list (value : String) (label : String) : Except String (List Nat) :=
  (((pySplit ',' value).map pyStrip).filter (fun item => item ≠ "")).mapM
    (fun item =>
      if pyIsDigit item then Except.ok (digitsToNat item.toList)
      else Except.error ("Invalid " ++ label ++ " code: " ++ item))

/-- `dict.setdefault(k, []).extend(vs)` on the insertion-ordered subcategory
map. -/
def subMapExtend (m : List (Nat × List Nat)) (k : Nat) (vs : List Nat) :
    List (Nat × List Nat) :=
  match m with
  | [] => [(k, vs)]
  | (k', vs') :: rest =>
    if k' = k then (k', vs' ++ vs) :: rest else (k', vs') :: subMapExtend rest k vs

/-- Token loop of `app/classification.py::_parse_subcategory_map`: a
`<domain>=<subs>` token switches the current domain; bare code tokens extend
it. -/
def parseSubMapGo : List String → Option Nat → List (Nat × List Nat) →
    Except String (List (Nat × List Nat))
  | [], _, acc => .ok acc
  | tok :: rest, current_domain, acc =>
    if tok.toList.contains '=' then
      let parts := pySplitLimit '=' 1 tok
      let domain_str := parts.headD ""
      let sub_str := (parts.drop 1).headD ""
      match parse_int_code (pyStrip domain_str) with
      | .error e => .error e
      | .ok domain_code =>
        if pyStrip sub_str = "" then .error ("Invalid subcategory entry: " ++ tok)
        else
          match parse_code_list sub_str ("S" ++ toString domain_code) with
          | .error e => .error e
          | .ok subcodes =>
            parseSubMapGo rest (some domain_code) (subMapExtend acc domain_code subcodes)
    else
      match current_domain with
      | none => .error ("Subcategory code without domain: " ++ tok)
      | some domain_code =>
        match parse_code_list tok ("S" ++ toString domain_code) with
        | .error e => .error e
        | .ok subcodes =>
          parseSubMapGo rest current_domain (subMapExtend acc domain_code subcodes)

/-- `app/classification.py::_parse_subcategory_map`: split on `;`, then on
`,`, strip and drop blanks, and run the token loop. -/
def parse_subcategory_map (segment : String) : Except String (List (Nat × List Nat)) :=
  let tokens := (((pySplit ';' segment).map pyStrip).filter (fun p => p ≠ "")).flatMap
    (fun part => ((pySplit ',' part).map pyStrip).filter (fun item => item ≠ ""))
  parseSubMapGo tokens none []

/-- Decoded compact line (the dict `_parse_compact_line` returns). -/
structure CompactMsg where
  id : String
  intents : List IntentType
  domains : List (DomainType × List String)
  is_spam : Bool
  urgency_score : Nat
  reasoning : String
  deriving DecidableEq

/-- The `for domain_code in domain_codes` loop of `_parse_compact_line`:
resolve each code, reject subcategories on `NONE`, and map subcategory codes
through the per-domain table. -/
def buildDomains (subcategory_map : List (Nat × List Nat)) :
    List Nat → Except String (List (DomainType × List String))
  | [] => .ok []
  | domain_code :: rest =>
    match DOMAIN_CODE_TO_VALUE.lookup domain_code with
    | none => .error ("Unknown domain code: " ++ toString domain_code)
    | some domain_value =>
      if domain_value = .NONE ∧ (subcategory_map.lookup domain_code).isSome then
        .error "Subcategories not allowed for NONE domain"
      else
        match ((subcategory_map.lookup domain_code).getD []).mapM (fun sub_code =>
          match (SUBCATEGORY_CODE_TO_VALUE domain_value).lookup sub_code with
          | some v => Except.ok v
          | none => Except.error ("Unknown subcategory code: " ++ toString sub_code)) with
        | .error e => .error e
        | .ok subcategories =>
          match buildDomains subcategory_map rest with
          | .error e => .error e
          | .ok tail => .ok ((domain_value, subcategories) :: tail)

/-- `_parse_compact_line` after splitting and stripping the seven fields:
parse intent, parse domain codes (empty list becomes `[12]`, i.e. `NONE`),
parse the subcategory map, coalesce `NONE` away when real domains are present
(also dropping its subcategory entries), reject subcategory entries for
non-selected domains, build the domain list, and validate spam and urgency. -/
def parseCompactFields (line msg_id intent_raw domains_raw subcats_raw spam_raw
    urgency_raw reasoning : String) : Except String CompactMsg :=
  if msg_id = "" then .error ("Missing message id in line: " ++ line)
  else
    match parse_int_code intent_raw with
    | .error e => .error e
    | .ok intent_code =>
      match INTENT_CODE_TO_VALUE.lookup intent_code with
      | none => .error ("Unknown intent code: " ++ toString intent_code)
      | some intent_value =>
        match (if domains_raw ≠ "" then parse_code_list domains_raw "D"
            else .ok []) with
        | .error e => .error e
        | .ok domain_codes0 =>
          let domain_codes1 := if domain_codes0 = [] then [12] else domain_codes0
          match parse_subcategory_map subcats_raw with
          | .error e => .error e
          | .ok subcategory_map0 =>
            let domain_codes :=
              if 12 ∈ domain_codes1 ∧ domain_codes1.length > 1 then
                domain_codes1.filter (fun code => decide (code ≠ 12))
              else domain_codes1
            let subcategory_map :=
              if 12 ∈ domain_codes1 ∧ domain_codes1.length > 1 then
                subcategory_map0.filter (fun kv => decide (kv.1 ≠ 12))
              else subcategory_map0
            if (subcategory_map.map Prod.fst).filter
                (fun k => decide (k ∉ domain_codes)) ≠ [] then
              .error "Subcategory entries for non-selected domains"
            else
              match buildDomains subcategory_map domain_codes with
              | .error e => .error e
              | .ok domains =>
                if spam_raw ≠ "0" ∧ spam_raw ≠ "1" then
                  .error ("Invalid spam flag: " ++ spam_raw)
                else
                  match parse_int_code urgency_raw with
                  | .error e => .error e
                  | .ok urgency_code =>
                    if urgency_code < 1 ∨ urgency_code > 5 then
                      .error "Urgency out of range (1..5)"
                    else
                      .ok { id := msg_id
                            intents := [intent_value]
                            domains := domains
                            is_spam := spam_raw = "1"
                            urgency_score := urgency_code
                            reasoning := reasoning }

/-- `app/classification.py::_parse_compact_line`: `line.split("|", 6)` must
yield exactly 7 parts, each stripped. -/
def parse_compact_line (line : String) : Except String CompactMsg :=
  let parts := pySplitLimit '|' 6 line
  if parts.length = 7 then
    parseCompactFields line (pyStrip (parts.getD 0 "")) (pyStrip (parts.getD 1 ""))
      (pyStrip (parts.getD 2 "")) (pyStrip (parts.getD 3 ""))
      (pyStrip (parts.getD 4 "")) (pyStrip (parts.getD 5 ""))
      (pyStrip (parts.getD 6 ""))
  else .error ("Invalid line format (expected 7 parts): " ++ line)

/-- The raw domain-code list of a compact line, before `NONE` coalescing: the
third `|`-field parsed by `_parse_code_list` (blank field and empty list both
becoming `[12]`). -/
def domainCodesOfLine (line : String) : Option (List Nat) :=
  let parts := pySplitLimit '|' 6 line
  if parts.length = 7 then
    match (if pyStrip (parts.getD 2 "") ≠ "" then
        parse_code_list (pyStrip (parts.getD 2 "")) "D" else .ok []) with
    | .error _ => none
    | .ok domain_codes0 =>
      some (if domain_codes0 = [] then [12] else domain_codes0)
  else none

/-- An input message of `app/batch_llm_analyzer.py::analyze_messages_batch`
(`{"id": ..., "text": ...}`). -/
structure InMsg where
  id : String
  text : String
  deriving DecidableEq

/-- A per-line parse error collected by
`app/classification.py` best-effort batch parsing. -/
structure ParseErrEntry where
  id : String
  line : String
  error : String
  deriving DecidableEq

/-- Stripped non-blank lines of the LLM output. -/
def parseCompactBatchLines (text : String) : List String :=
  ((pySplit '\n' text).map pyStrip).filter (fun l => l ≠ "")

/-- `app/classification.py::parse_compact_batch_partial` (best-effort
parsing): every line parses into a classified message or a per-line error
entry whose `id` is the stripped text before the first `|`.  (Pydantic
re-validation of the already-typed record is the identity here.) -/
def parseCompactBatchBestEffort (text : String) :
    Except String (List CompactMsg × List ParseErrEntry) :=
  if pyStrip text = "" then .error "Empty compact output"
  else
    if parseCompactBatchLines text = [] then .error "No compact lines found"
    else .ok
      ((parseCompactBatchLines text).filterMap (fun line =>
        match parse_compact_line line with
        | .ok m => some m
        | .error _ => none),
       (parseCompactBatchLines text).filterMap (fun line =>
        match parse_compact_line line with
        | .ok _ => none
        | .error e =>
          some ⟨pyStrip ((pySplitLimit '|' 1 line).headD ""), line, e⟩))

/-- The renumbering map of `analyze_messages_batch`: order ids `"1".."N"`
to the callers' original ids (`enumerate(messages, start=1)`). -/
def order_id_map (start : Nat) : List InMsg → List (String × String)
  | [] => []
  | m :: rest => (toString start, m.id) :: order_id_map (start + 1) rest

/-- Result of the response-processing stage of `analyze_messages_batch`. -/
inductive AnalyzeOutcome
  | success (classified : List CompactMsg) (parse_errors : List ParseErrEntry)
  | failure (error : String) (unknown_ids : List String)
  deriving DecidableEq

/-- `app/batch_llm_analyzer.py::analyze_messages_batch`, its pure part: the
input validation (`empty_batch`, `batch_too_large`), the `no_content` check on
the assistant text, the best-effort compact parse, the unknown-id check
(`parse_error` fails the whole batch) and the remap of classified-message and
parse-error ids back to the callers' ids.  The HTTP transport and the error
kinds it produces stay outside this pure boundary. -/
def analyze_messages_batch_content (llm_batch_size : Nat) (messages : List InMsg)
    (content : String) : AnalyzeOutcome :=
  if messages = [] then .failure "empty_batch" []
  else if messages.length > llm_batch_size then .failure "batch_too_large" []
  else if pyStrip content = "" then .failure "no_content" []
  else
    match parseCompactBatchBestEffort content with
    | .error _ => .failure "parse_error" []
    | .ok (parsed, parse_errors) =>
      if (parsed.filter (fun m =>
          ((order_id_map 1 messages).lookup (pyStrip m.id)).isNone)).map
          (fun m => pyStrip m.id) ≠ [] then
        .failure "parse_error"
          ((parsed.filter (fun m =>
            ((order_id_map 1 messages).lookup (pyStrip m.id)).isNone)).map
            (fun m => pyStrip m.id))
      else
        .success
          (parsed.map (fun m =>
            { m with id := ((order_id_map 1 messages).lookup (pyStrip m.id)).getD m.id }))
          (parse_errors.map (fun e =>
            if pyStrip e.id ≠ "" ∧
                ((order_id_map 1 messages).lookup (pyStrip e.id)).isSome then
              { e with id := ((order_id_map 1 messages).lookup (pyStrip e.id)).getD e.id }
            else e))

/-- The normalized message record the ingestor extracts from a payload
(`workers/ingestor_worker.py::_extract_message_data`, fields used by the LLM
stage). -/
structure MsgData where
  chat_id : Int
  message_id : Int
  text : Option String
  deriving DecidableEq

/-- The dict `app/batch_llm_analyzer.py::analyze_messages_batch` returns, as
consumed by `_process_llm_batch`: the `ok` flag, error fields, and on success
the classified messages and per-line parse errors. -/
structure LlmBatchResult where
  ok : Bool
  error : Option String
  status_code : Option Int
  body : Option String
  message : Option String
  classified_messages : List CompactMsg
  parse_errors : List ParseErrEntry
  raw : Option String
  deriving DecidableEq

/-- The `llm_analysis` JSON attached to a persisted row by
`_process_llm_batch`: `{"ok": True, **classified}`, a parse failure, a
missing result, or `{"ok": False, **error_payload}` (the whole analyzer
result minus the `ok` key). -/
inductive LlmAnalysis
  | okClassified (c : CompactMsg)
  | parseFailed (message : String)
  | missingResult
  | errorPayload (r : LlmBatchResult)
  deriving DecidableEq

/-- One entry of the `results` list handed to `_persist_batch`. -/
structure ProcResult where
  msg_data : MsgData
  intents : List IntentType
  domains : List (DomainType × List String)
  is_spam : Bool
  urgency_score : Nat
  reasoning : String
  llm_analysis : LlmAnalysis
  deriving DecidableEq

/-- `error_type = llm_result.get("error") or "unknown_error"`. -/
def errorTypeOf (llm : LlmBatchResult) : String :=
  match llm.error with
  | some e => if e ≠ "" then e else "unknown_error"
  | none => "unknown_error"

/-- Body snippet truncation at 500 characters. -/
def truncate500 (s : String) : String :=
  if s.length > 500 then String.mk (s.toList.take 500) ++ "...(truncated)" else s

/-- The `parts` list of the human-readable LLM error message. -/
def llmErrorParts (llm : LlmBatchResult) : List String :=
  let parts3 := [errorTypeOf llm] ++
    (match llm.status_code with
     | some s => ["status=" ++ toString s]
     | none => []) ++
    (match llm.body with
     | some b => if b ≠ "" then ["body_snippet=" ++ truncate500 b] else []
     | none => [])
  parts3 ++
    (match llm.message with
     | some m => if m ≠ "" ∧ m ∉ parts3 then ["message=" ++ m] else []
     | none => [])

/-- `error_msg = "; ".join(parts)`. -/
def llmErrorMsg (llm : LlmBatchResult) : String :=
  String.intercalate "; " (llmErrorParts llm)

/-- The synthetic `OTHER/NONE/urgency-1` row `_process_llm_batch` builds for
each candidate on a non-requeued LLM failure, with the detailed error payload
in `llm_analysis`. -/
def syntheticErrorRow (llm : LlmBatchResult) (msg_data : MsgData) : ProcResult :=
  { msg_data := msg_data
    intents := [.OTHER]
    domains := [(.NONE, [])]
    is_spam := false
    urgency_score := 1
    reasoning := "LLM analysis failed: " ++ llmErrorMsg llm
    llm_analysis := .errorPayload llm }

/-- `llm_result_map[msg_id] = classified` in a loop: last entry wins. -/
def lastClassifiedFor (l : List CompactMsg) (msg_id : String) : Option CompactMsg :=
  l.foldl (fun acc c => if c.id = msg_id then some c else acc) none

/-- `err_msg = str(err.get("error", "")).strip() or "unknown_parse_error"`. -/
def parseErrMsgOf (e : ParseErrEntry) : String :=
  if pyStrip e.error ≠ "" then pyStrip e.error else "unknown_parse_error"

/-- `parse_error_map` built from entries with non-blank stripped ids, last
entry winning. -/
def lastParseErrFor (l : List ParseErrEntry) (msg_id : String) : Option String :=
  l.foldl (fun acc e =>
    if pyStrip e.id ≠ "" ∧ pyStrip e.id = msg_id then some (parseErrMsgOf e) else acc)
    none

/-- The requeue decision record returned by `_process_llm_batch` on an HTTP
4xx/5xx failure (`requeue=True` plus context). -/
structure RequeueInfo where
  error : String
  status_code : Int
  message : String
  deriving DecidableEq

/-- `f"{msg['chat_id']}_{msg['message_id']}"`. -/
def llmMsgIdOf (msg_data : MsgData) : String :=
  toString msg_data.chat_id ++ "_" ++ toString msg_data.message_id

/-- `isinstance(status_code, int) and 400 <= status_code < 600`. -/
def httpStatusRequeue (status_code : Option Int) : Bool :=
  match status_code with
  | some s => decide (400 ≤ s ∧ s < 600)
  | none => false

/-- `workers/ingestor_worker.py::_process_llm_batch`: on `ok=true`, map each
candidate to its classification, a parse-failure fallback, or a
missing-result fallback; on `ok=false` with `http_error` and an integer
status in `[400, 600)` return no results and a requeue decision; on any other
failure return a synthetic error row per candidate. -/
def process_llm_batch (llm_candidates : List MsgData) (llm : LlmBatchResult) :
    List ProcResult × Option RequeueInfo :=
  if llm_candidates = [] then ([], none)
  else if llm.ok then
    (llm_candidates.map (fun msg_data =>
      match lastClassifiedFor llm.classified_messages (llmMsgIdOf msg_data) with
      | some classified =>
        { msg_data := msg_data
          intents := classified.intents
          domains := classified.domains
          is_spam := classified.is_spam
          urgency_score := classified.urgency_score
          reasoning := classified.reasoning
          llm_analysis := .okClassified classified }
      | none =>
        match lastParseErrFor llm.parse_errors (llmMsgIdOf msg_data) with
        | some parse_reason =>
          { msg_data := msg_data
            intents := [.OTHER]
            domains := [(.NONE, [])]
            is_spam := false
            urgency_score := 1
            reasoning := "LLM parse failed: " ++ parse_reason
            llm_analysis := .parseFailed parse_reason }
        | none =>
          { msg_data := msg_data
            intents := [.OTHER]
            domains := [(.NONE, [])]
            is_spam := false
            urgency_score := 1
            reasoning := "LLM result missing for message"
            llm_analysis := .missingResult }), none)
  else
    if errorTypeOf llm = "http_error" ∧ httpStatusRequeue llm.status_code then
      ([], some ⟨errorTypeOf llm, llm.status_code.getD 0, llmErrorMsg llm⟩)
    else
      (llm_candidates.map (syntheticErrorRow llm), none)

/-- Observable bus/store effects of one LLM batch inside
`_consume_queue` (tags stand for the buffered `aio_pika` message handles). -/
inductive BusEffect
  | persist (rows : List ProcResult)
  | ack (tag : Nat)
  | rejectRequeue (tag : Nat)
  deriving DecidableEq

/-- The `for llm_batch in llm_batches_to_process` body of
`workers/ingestor_worker.py::_consume_queue` (lines 616–643): run
`_process_llm_batch`; on a requeue decision reject every bus message with
requeue and persist nothing; otherwise persist the results (when non-empty)
and then ack every bus message of the batch. -/
def consumeLlmBatchStep (llm_batch : List (MsgData × Nat)) (llm : LlmBatchResult) :
    List BusEffect :=
  match (process_llm_batch (llm_batch.map Prod.fst) llm).2 with
  | some _ => llm_batch.map (fun entry => .rejectRequeue entry.2)
  | none =>
    (if (process_llm_batch (llm_batch.map Prod.fst) llm).1 ≠ [] then
      [.persist (process_llm_batch (llm_batch.map Prod.fst) llm).1]
    else []) ++ llm_batch.map (fun entry => .ack entry.2)

/-- Concrete solver scenario for the residual-flexibility divergence: chats
`[1, 2, 3]`, chat 1 eligible for `["b", "a1"]`, chats 2 and 3 for
`["a1", "a2"]`, default weights, unbounded capacities. -/
def flexEligible : ChatId → List AccountId :=
  fun c => if c = 1 then ["b", "a1"] else ["a1", "a2"]

/-- The sorted pool of that scenario (all sort keys tie, so input order). -/
def flexSorted : List ChatId := solverSorted [1, 2, 3] flexEligible (fun _ => none)

/-- The loop state at which chat 2 is decided: the run over the sorted prefix
strictly before 2 (chat 1 has gone to `"b"`). -/
def flexStateAt2 : SolverState :=
  solverRun flexEligible (fun _ => none) (fun _ => (⊤ : WithTop ℚ)) flexSorted
    (flexSorted.takeWhile (fun d => decide (d ≠ 2))) ⟨fun _ => 0, fun _ => ∅⟩

/-- Looking up a key `a` in a dict built by tabulating `f` over a key list
containing `a` yields `f a`. -/
theorem lookup_tabulate {α β : Type} [DecidableEq α] (f : α → β) (l : List α) (a : α) :
    a ∈ l → (l.map (fun x => (x, f x))).lookup a = some (f a) := by
  induction l with
  | nil => intro h; cases h
  | cons x xs ih =>
    intro h
    rw [List.mem_cons] at h
    by_cases hx : a = x
    · subst hx
      simp [List.lookup]
    · rcases h with h | h
      · exact absurd h hx
      · have hb : (a == x) = false := beq_eq_false_iff_ne.mpr hx
        simpa [List.lookup, hb] using ih h

theorem Assignment.get_tabulate (f : AccountId → Finset ChatId) (l : List AccountId)
    (a : AccountId) (h : a ∈ l) :
    Assignment.get (l.map (fun x => (x, f x))) a = f a := by
  unfold Assignment.get
  rw [lookup_tabulate f l a h]

/-- C10: `diff_assignments(prev, new)` computes, for every account in the union
of the two key sets, `adds[a] = new[a] \ prev[a]` and `removes[a] = prev[a] \ new[a]`
(missing accounts read as the empty set); hence `adds[a]` and `removes[a]` are
disjoint and `(prev[a] \ removes[a]) ∪ adds[a] = new[a]`. -/
theorem diff_assignments_correct (prev new : Assignment) (a : AccountId)
    (h : a ∈ prev.keys ∨ a ∈ new.keys) :
    (diff_assignments prev new).1.get a = new.get a \ prev.get a ∧
    (diff_assignments prev new).2.get a = prev.get a \ new.get a ∧
    Disjoint ((diff_assignments prev new).1.get a) ((diff_assignments prev new).2.get a) ∧
    (prev.get a \ (diff_assignments prev new).2.get a) ∪
      (diff_assignments prev new).1.get a = new.get a := by
  have hmem : a ∈ (prev.keys ++ new.keys).dedup := by
    rw [List.mem_dedup, List.mem_append]
    exact h
  have hadds : (diff_assignments prev new).1.get a = new.get a \ prev.get a := by
    unfold diff_assignments
    exact Assignment.get_tabulate (fun x => new.get x \ prev.get x) _ a hmem
  have hrem : (diff_assignments prev new).2.get a = prev.get a \ new.get a := by
    unfold diff_assignments
    exact Assignment.get_tabulate (fun x => prev.get x \ new.get x) _ a hmem
  refine ⟨hadds, hrem, ?_, ?_⟩
  · rw [hadds, hrem]
    exact disjoint_sdiff_sdiff
  · rw [hadds, hrem]
    rw [Finset.sdiff_sdiff_self_left]
    ext x
    simp only [Finset.mem_union, Finset.mem_inter, Finset.mem_sdiff]
    tauto

/-- Witness for `diff_assignments_correct` at a concrete input. -/
theorem diff_assignments_correct_witness :
    ("a" ∈ Assignment.keys [("a", ({1, 2} : Finset ChatId))] ∨
      "a" ∈ Assignment.keys [("a", ({2, 3} : Finset ChatId))]) ∧
    ((diff_assignments [("a", {1, 2})] [("a", {2, 3})]).1.get "a" =
      Assignment.get [("a", {2, 3})] "a" \ Assignment.get [("a", {1, 2})] "a" ∧
     (diff_assignments [("a", {1, 2})] [("a", {2, 3})]).2.get "a" =
      Assignment.get [("a", {1, 2})] "a" \ Assignment.get [("a", {2, 3})] "a" ∧
     Disjoint ((diff_assignments [("a", {1, 2})] [("a", {2, 3})]).1.get "a")
       ((diff_assignments [("a", {1, 2})] [("a", {2, 3})]).2.get "a") ∧
     (Assignment.get [("a", {1, 2})] "a" \
        (diff_assignments [("a", {1, 2})] [("a", {2, 3})]).2.get "a") ∪
       (diff_assignments [("a", {1, 2})] [("a", {2, 3})]).1.get "a" =
      Assignment.get [("a", {2, 3})] "a") :=
  ⟨by decide, diff_assignments_correct [("a", {1, 2})] [("a", {2, 3})] "a" (by decide)⟩

theorem pyInsort_perm {α : Type} (le : α → α → Bool) (x : α) (l : List α) :
    (pyInsort le x l).Perm (x :: l) := by
  induction l with
  | nil => simp [pyInsort]
  | cons y ys ih =>
    by_cases h : le x y
    · simp [pyInsort, h]
    · simp only [pyInsort, h, if_neg, Bool.false_eq_true, if_false]
      exact ((ih.cons y).trans (List.Perm.swap x y ys))

theorem pySorted_perm {α : Type} (le : α → α → Bool) (l : List α) :
    (pySorted le l).Perm l := by
  induction l with
  | nil => simp [pySorted]
  | cons x xs ih =>
    exact (pyInsort_perm le x (pySorted le xs)).trans (ih.cons x)

theorem chosenFor_none_iff (e : ChatId → List AccountId) (cw : ChatId → Option ℚ)
    (cap : AccountId → WithTop ℚ) (s : List ChatId) (st : SolverState) (c : ChatId) :
    chosenFor e cw cap s st c = none ↔ solverCandidates e cw cap st c = [] := by
  unfold chosenFor
  cases solverCandidates e cw cap st c <;> simp

theorem pyMinKey_mem {α β : Type} (lt : β → β → Bool) (key : α → β) (x : α) (xs : List α) :
    pyMinKey lt key x xs ∈ x :: xs := by
  induction xs generalizing x with
  | nil => simp [pyMinKey]
  | cons y ys ih =>
    show List.foldl _ _ _ ∈ _
    rw [List.foldl_cons]
    by_cases h : lt (key y) (key x)
    · have := ih y
      simp only [pyMinKey] at this
      simp only [h, if_true]
      rcases List.mem_cons.mp this with h' | h'
      · exact List.mem_cons.mpr (Or.inr (List.mem_cons.mpr (Or.inl h')))
      · exact List.mem_cons.mpr (Or.inr (List.mem_cons.mpr (Or.inr h')))
    · have := ih x
      simp only [pyMinKey] at this
      simp only [h, if_false]
      rcases List.mem_cons.mp this with h' | h'
      · exact List.mem_cons.mpr (Or.inl h')
      · exact List.mem_cons.mpr (Or.inr (List.mem_cons.mpr (Or.inr h')))

theorem chosenFor_mem (e : ChatId → List AccountId) (cw : ChatId → Option ℚ)
    (cap : AccountId → WithTop ℚ) (s : List ChatId) (st : SolverState) (c : ChatId)
    (ch : AccountId) (h : chosenFor e cw cap s st c = some ch) :
    ch ∈ solverCandidates e cw cap st c := by
  unfold chosenFor at h
  cases hc : solverCandidates e cw cap st c with
  | nil => rw [hc] at h; cases h
  | cons a rest =>
    rw [hc] at h
    have := pyMinKey_mem loadKeyLt
      (fun a => (st.load a, residual_flex e s st a)) a rest
    simpa [hc, ← Option.some_inj.mp h] using this

theorem solverCandidates_spec (e : ChatId → List AccountId) (cw : ChatId → Option ℚ)
    (cap : AccountId → WithTop ℚ) (st : SolverState) (c : ChatId) (a : AccountId) :
    a ∈ solverCandidates e cw cap st c ↔
      a ∈ e c ∧ ((st.load a + weightOf cw c : ℚ) : WithTop ℚ) ≤ cap a := by
  unfold solverCandidates
  rw [List.mem_filter]
  simp

/-- Membership in an assignment set after one loop iteration. -/
theorem solverStep_assigned_mem (e : ChatId → List AccountId) (cw : ChatId → Option ℚ)
    (cap : AccountId → WithTop ℚ) (s : List ChatId) (st : SolverState) (c : ChatId)
    (a : AccountId) (x : ChatId) :
    x ∈ (solverStep e cw cap s st c).assigned a ↔
      x ∈ st.assigned a ∨ (x = c ∧ chosenFor e cw cap s st c = some a) := by
  unfold solverStep
  cases hch : chosenFor e cw cap s st c with
  | none => simp
  | some ch =>
    by_cases ha : a = ch
    · subst ha
      simp [Finset.mem_insert]
      tauto
    · have : ¬ (some ch = some a) := by
        intro hcontra
        exact ha (Option.some_inj.mp hcontra).symm
      simp [ha, this]

theorem solverRun_assigned_mono (e : ChatId → List AccountId) (cw : ChatId → Option ℚ)
    (cap : AccountId → WithTop ℚ) (s : List ChatId) (l : List ChatId) (st : SolverState)
    (a : AccountId) (x : ChatId) (h : x ∈ st.assigned a) :
    x ∈ (solverRun e cw cap s l st).assigned a := by
  induction l generalizing st with
  | nil => exact h
  | cons c l' ih =>
    show x ∈ (solverRun e cw cap s l' (solverStep e cw cap s st c)).assigned a
    exact ih _ ((solverStep_assigned_mem e cw cap s st c a x).mpr (Or.inl h))

theorem solverRun_assigned_new (e : ChatId → List AccountId) (cw : ChatId → Option ℚ)
    (cap : AccountId → WithTop ℚ) (s : List ChatId) (l : List ChatId) (st : SolverState)
    (a : AccountId) (x : ChatId) (h : x ∈ (solverRun e cw cap s l st).assigned a) :
    x ∈ st.assigned a ∨ x ∈ l := by
  induction l generalizing st with
  | nil => exact Or.inl h
  | cons c l' ih =>
    rcases ih (solverStep e cw cap s st c) h with h' | h'
    · rcases (solverStep_assigned_mem e cw cap s st c a x).mp h' with h'' | h''
      · exact Or.inl h''
      · exact Or.inr (List.mem_cons.mpr (Or.inl h''.1))
    · exact Or.inr (List.mem_cons.mpr (Or.inr h'))

theorem solverRun_assigned_notin (e : ChatId → List AccountId) (cw : ChatId → Option ℚ)
    (cap : AccountId → WithTop ℚ) (s : List ChatId) (l : List ChatId) (st : SolverState)
    (a : AccountId) (x : ChatId) (hx : x ∉ l) :
    x ∈ (solverRun e cw cap s l st).assigned a ↔ x ∈ st.assigned a := by
  induction l generalizing st with
  | nil => exact Iff.rfl
  | cons c l' ih =>
    have hxc : x ≠ c := fun h => hx (h ▸ List.mem_cons_self c l')
    have hxl : x ∉ l' := fun h => hx (List.mem_cons.mpr (Or.inr h))
    show x ∈ (solverRun e cw cap s l' (solverStep e cw cap s st c)).assigned a ↔ _
    rw [ih _ hxl, solverStep_assigned_mem]
    constructor
    · rintro (h | ⟨h, _⟩)
      · exact h
      · exact absurd h hxc
    · exact Or.inl

theorem solverStep_inv (e : ChatId → List AccountId) (cw : ChatId → Option ℚ)
    (cap : AccountId → WithTop ℚ) (s : List ChatId) (c : ChatId) (l' : List ChatId)
    (st : SolverState) (hc : c ∉ l') (hInv : SolverInv e cw (c :: l') st) :
    SolverInv e cw l' (solverStep e cw cap s st c) := by
  obtain ⟨h1, h2, h3, h4⟩ := hInv
  have hfresh : ∀ a, c ∉ st.assigned a := fun a hmem =>
    (h1 a c hmem) (List.mem_cons_self c l')
  refine ⟨?_, ?_, ?_, ?_⟩
  · intro a x hx
    rcases (solverStep_assigned_mem e cw cap s st c a x).mp hx with h | h
    · intro hmem
      exact h1 a x h (List.mem_cons.mpr (Or.inr hmem))
    · rw [h.1]
      exact hc
  · intro a x hx
    rcases (solverStep_assigned_mem e cw cap s st c a x).mp hx with h | h
    · exact h2 a x h
    · rw [h.1]
      exact ((solverCandidates_spec e cw cap st c a).mp
        (chosenFor_mem e cw cap s st c a h.2)).1
  · intro a b hab
    rw [Finset.disjoint_left]
    intro x hxa hxb
    rcases (solverStep_assigned_mem e cw cap s st c a x).mp hxa with ha | ha <;>
      rcases (solverStep_assigned_mem e cw cap s st c b x).mp hxb with hb | hb
    · exact (Finset.disjoint_left.mp (h3 a b hab)) ha hb
    · exact hfresh a (hb.1 ▸ ha)
    · exact hfresh b (ha.1 ▸ hb)
    · exact hab (Option.some_inj.mp (ha.2.symm.trans hb.2))
  · intro a
    unfold solverStep
    cases hch : chosenFor e cw cap s st c with
    | none => exact h4 a
    | some ch =>
      by_cases ha : a = ch
      · subst ha
        simp only [eq_self_iff_true, if_true]
        rw [Finset.sum_insert (hfresh a), h4 a]
        ring
      · simp only [if_neg ha]
        exact h4 a

theorem solverRun_inv (e : ChatId → List AccountId) (cw : ChatId → Option ℚ)
    (cap : AccountId → WithTop ℚ) (s : List ChatId) (l : List ChatId) (st : SolverState)
    (hnd : l.Nodup) (hInv : SolverInv e cw l st) :
    SolverInv e cw [] (solverRun e cw cap s l st) := by
  induction l generalizing st with
  | nil => exact hInv
  | cons c l' ih =>
    have hc : c ∉ l' := (List.nodup_cons.mp hnd).1
    exact ih _ (List.nodup_cons.mp hnd).2 (solverStep_inv e cw cap s c l' st hc hInv)

theorem solverStep_load_le_cap (e : ChatId → List AccountId) (cw : ChatId → Option ℚ)
    (cap : AccountId → WithTop ℚ) (s : List ChatId) (c : ChatId) (st : SolverState)
    (h : ∀ a, ((st.load a : ℚ) : WithTop ℚ) ≤ cap a) :
    ∀ a, (((solverStep e cw cap s st c).load a : ℚ) : WithTop ℚ) ≤ cap a := by
  intro a
  unfold solverStep
  cases hch : chosenFor e cw cap s st c with
  | none => exact h a
  | some ch =>
    by_cases ha : a = ch
    · subst ha
      simp only [if_pos rfl]
      exact ((solverCandidates_spec e cw cap st c a).mp
        (chosenFor_mem e cw cap s st c a hch)).2
    · simp only [if_neg ha]
      exact h a

theorem solverRun_load_le_cap (e : ChatId → List AccountId) (cw : ChatId → Option ℚ)
    (cap : AccountId → WithTop ℚ) (s : List ChatId) (l : List ChatId) (st : SolverState)
    (h : ∀ a, ((st.load a : ℚ) : WithTop ℚ) ≤ cap a) :
    ∀ a, (((solverRun e cw cap s l st).load a : ℚ) : WithTop ℚ) ≤ cap a := by
  induction l generalizing st with
  | nil => exact h
  | cons c l' ih =>
    exact ih _ (solverStep_load_le_cap e cw cap s c st h)

theorem lookup_tabulate_none {α β : Type} [DecidableEq α] (f : α → β) (l : List α) (a : α)
    (h : a ∉ l) : (l.map (fun x => (x, f x))).lookup a = none := by
  induction l with
  | nil => rfl
  | cons x xs ih =>
    have hax : a ≠ x := fun hh => h (hh ▸ List.mem_cons_self x xs)
    have hb : (a == x) = false := beq_eq_false_iff_ne.mpr hax
    have : a ∉ xs := fun hh => h (List.mem_cons.mpr (Or.inr hh))
    simpa [List.lookup, hb] using ih this

theorem solverSorted_nodup (channels : List ChatId) (e : ChatId → List AccountId)
    (cw : ChatId → Option ℚ) (hnd : channels.Nodup) :
    (solverSorted channels e cw).Nodup := by
  unfold solverSorted
  exact (pySorted_perm _ _).nodup_iff.mpr (List.Nodup.filter _ hnd)

theorem assign_channels_balanced_inv (channels : List ChatId)
    (e : ChatId → List AccountId) (cw : ChatId → Option ℚ)
    (cap : AccountId → WithTop ℚ) (hnd : channels.Nodup) :
    SolverInv e cw []
      (solverRun e cw cap (solverSorted channels e cw) (solverSorted channels e cw)
        ⟨fun _ => 0, fun _ => ∅⟩) := by
  apply solverRun_inv e cw cap _ _ _ (solverSorted_nodup channels e cw hnd)
  refine ⟨?_, ?_, ?_, ?_⟩
  · intro a x hx
    simp at hx
  · intro a x hx
    simp at hx
  · intro a b _
    simp
  · intro a
    simp

/-- The dict returned by `assign_channels_balanced` reads back the final
`assigned` sets on the account list, and the empty set off it. -/
theorem assign_channels_balanced_get (channels : List ChatId)
    (e : ChatId → List AccountId) (cw : ChatId → Option ℚ) (accounts : List AccountId)
    (cap : AccountId → WithTop ℚ) (a : AccountId) :
    (assign_channels_balanced channels e cw accounts cap).get a =
      if a ∈ accounts then
        (solverRun e cw cap (solverSorted channels e cw) (solverSorted channels e cw)
          ⟨fun _ => 0, fun _ => ∅⟩).assigned a
      else ∅ := by
  unfold assign_channels_balanced
  by_cases h : a ∈ accounts
  · rw [if_pos h]
    exact Assignment.get_tabulate _ accounts a h
  · rw [if_neg h]
    unfold Assignment.get
    rw [lookup_tabulate_none _ accounts a h]

/-- C1: an assignment produced by the solver on a duplicate-free channel list
(the reassign job always passes one, as `target_ids` is rebuilt from a Python
set) assigns each account only chats it is eligible for, assigns every chat to
at most one account, and `write_all` strictly increases the stored `version`
counter. -/
theorem write_all_reassign_invariants (channels : List ChatId)
    (e : ChatId → List AccountId) (cw : ChatId → Option ℚ) (accounts : List AccountId)
    (cap : AccountId → WithTop ℚ) (st : RedisAssignState) (summary : Option String)
    (hnd : channels.Nodup) :
    (∀ a, ∀ c ∈ (assign_channels_balanced channels e cw accounts cap).get a, a ∈ e c) ∧
    (∀ a b, a ≠ b →
      Disjoint ((assign_channels_balanced channels e cw accounts cap).get a)
        ((assign_channels_balanced channels e cw accounts cap).get b)) ∧
    (AssignmentStore.write_all st
      (assign_channels_balanced channels e cw accounts cap) summary).version >
      st.version := by
  obtain ⟨_, h2, h3, _⟩ := assign_channels_balanced_inv channels e cw cap hnd
  refine ⟨?_, ?_, ?_⟩
  · intro a c hc
    rw [assign_channels_balanced_get] at hc
    by_cases h : a ∈ accounts
    · rw [if_pos h] at hc
      exact h2 a c hc
    · rw [if_neg h] at hc
      simp at hc
  · intro a b hab
    rw [assign_channels_balanced_get, assign_channels_balanced_get]
    by_cases ha : a ∈ accounts <;> by_cases hb : b ∈ accounts <;>
      simp only [if_pos, if_neg, ha, hb, if_true, if_false]
    · exact h3 a b hab
    · exact Finset.disjoint_empty_right _
    · exact Finset.disjoint_empty_left _
    · exact Finset.disjoint_empty_right _
  · show st.version + 1 > st.version
    omega

/-- Witness for `write_all_reassign_invariants`: two chats, two accounts,
default weights, unbounded capacity. -/
theorem write_all_reassign_invariants_witness :
    ([(1 : ChatId), 2].Nodup) ∧
    ((∀ a, ∀ c ∈ (assign_channels_balanced [1, 2]
        (fun c => if c = 1 then ["a"] else ["a", "b"]) (fun _ => none) ["a", "b"]
        (fun _ => ⊤)).get a,
        a ∈ (fun c => if c = 1 then ["a"] else ["a", "b"] : ChatId → List AccountId) c) ∧
     (∀ a b, a ≠ b →
      Disjoint ((assign_channels_balanced [1, 2]
        (fun c => if c = 1 then ["a"] else ["a", "b"]) (fun _ => none) ["a", "b"]
        (fun _ => ⊤)).get a)
        ((assign_channels_balanced [1, 2]
        (fun c => if c = 1 then ["a"] else ["a", "b"]) (fun _ => none) ["a", "b"]
        (fun _ => ⊤)).get b)) ∧
     (AssignmentStore.write_all ⟨fun _ => ∅, 7, none⟩
        (assign_channels_balanced [1, 2]
          (fun c => if c = 1 then ["a"] else ["a", "b"]) (fun _ => none) ["a", "b"]
          (fun _ => ⊤)) none).version > (7 : Int)) :=
  ⟨by decide,
   write_all_reassign_invariants [1, 2]
     (fun c => if c = 1 then ["a"] else ["a", "b"]) (fun _ => none) ["a", "b"]
     (fun _ => ⊤) ⟨fun _ => ∅, 7, none⟩ none (by decide)⟩

theorem solverRun_append (e : ChatId → List AccountId) (cw : ChatId → Option ℚ)
    (cap : AccountId → WithTop ℚ) (s l₁ l₂ : List ChatId) (st : SolverState) :
    solverRun e cw cap s (l₁ ++ l₂) st =
      solverRun e cw cap s l₂ (solverRun e cw cap s l₁ st) :=
  List.foldl_append _ _ _ _

theorem dropWhile_ne_eq_cons {α : Type} [DecidableEq α] (c : α) (l : List α) (h : c ∈ l) :
    ∃ l₂, l.dropWhile (fun d => decide (d ≠ c)) = c :: l₂ := by
  induction l with
  | nil => cases h
  | cons d rest ih =>
    by_cases hd : d = c
    · subst hd
      exact ⟨rest, by simp [List.dropWhile]⟩
    · have hc : c ∈ rest := by
        rcases List.mem_cons.mp h with h' | h'
        · exact absurd h'.symm hd
        · exact h'
      obtain ⟨l₂, hl₂⟩ := ih hc
      refine ⟨l₂, ?_⟩
      rw [List.dropWhile_cons, if_pos (by simp [hd]), hl₂]

theorem takeWhile_ne_not_mem {α : Type} [DecidableEq α] (c : α) (l : List α) :
    c ∉ l.takeWhile (fun d => decide (d ≠ c)) := by
  intro h
  have := List.mem_takeWhile_imp h
  simp at this

theorem mem_solverSorted (channels : List ChatId) (e : ChatId → List AccountId)
    (cw : ChatId → Option ℚ) (c : ChatId) :
    c ∈ solverSorted channels e cw ↔ c ∈ channels ∧ e c ≠ [] := by
  unfold solverSorted
  rw [(pySorted_perm _ _).mem_iff, List.mem_filter]
  simp

theorem solver_member_iff (channels : List ChatId) (e : ChatId → List AccountId)
    (cw : ChatId → Option ℚ) (cap : AccountId → WithTop ℚ)
    (hnd : channels.Nodup) (c : ChatId) (hc : c ∈ channels) (he : e c ≠ []) :
    (∃ a, c ∈ (solverRun e cw cap (solverSorted channels e cw)
        (solverSorted channels e cw) ⟨fun _ => 0, fun _ => ∅⟩).assigned a) ↔
      ∃ a ∈ e c,
        ((loadsBefore channels e cw cap c a + weightOf cw c : ℚ) : WithTop ℚ) ≤ cap a := by
  have hcs : c ∈ solverSorted channels e cw :=
    (mem_solverSorted channels e cw c).mpr ⟨hc, he⟩
  have hnds : (solverSorted channels e cw).Nodup := solverSorted_nodup channels e cw hnd
  obtain ⟨l₂, hdw⟩ := dropWhile_ne_eq_cons c (solverSorted channels e cw) hcs
  have hsplit : solverSorted channels e cw =
      (solverSorted channels e cw).takeWhile (fun d => decide (d ≠ c)) ++ c :: l₂ := by
    conv_lhs => rw [← List.takeWhile_append_dropWhile
      (p := fun d => decide (d ≠ c)) (l := solverSorted channels e cw)]
    rw [hdw]
  have hcpre : c ∉ (solverSorted channels e cw).takeWhile (fun d => decide (d ≠ c)) :=
    takeWhile_ne_not_mem c _
  have hcl₂ : c ∉ l₂ := by
    have : ((solverSorted channels e cw).takeWhile (fun d => decide (d ≠ c)) ++
        c :: l₂).Nodup := hsplit ▸ hnds
    exact (List.nodup_cons.mp this.of_append_right).1
  have h0 : solverRun e cw cap (solverSorted channels e cw) (solverSorted channels e cw)
        ⟨fun _ => 0, fun _ => ∅⟩ =
      solverRun e cw cap (solverSorted channels e cw)
        ((solverSorted channels e cw).takeWhile (fun d => decide (d ≠ c)) ++ c :: l₂)
        ⟨fun _ => 0, fun _ => ∅⟩ :=
    congrArg (fun l => solverRun e cw cap (solverSorted channels e cw) l
      ⟨fun _ => 0, fun _ => ∅⟩) hsplit
  have h1 : solverRun e cw cap (solverSorted channels e cw) (solverSorted channels e cw)
        ⟨fun _ => 0, fun _ => ∅⟩ =
      solverRun e cw cap (solverSorted channels e cw) l₂
        (solverStep e cw cap (solverSorted channels e cw)
          (solverRun e cw cap (solverSorted channels e cw)
            ((solverSorted channels e cw).takeWhile (fun d => decide (d ≠ c)))
            ⟨fun _ => 0, fun _ => ∅⟩) c) := by
    rw [h0, solverRun_append]
    rfl
  have hfreshB : ∀ a, c ∉ (solverRun e cw cap (solverSorted channels e cw)
      ((solverSorted channels e cw).takeWhile (fun d => decide (d ≠ c)))
      ⟨fun _ => 0, fun _ => ∅⟩).assigned a := by
    intro a hmem
    rcases solverRun_assigned_new e cw cap _ _ _ a c hmem with h | h
    · simp at h
    · exact hcpre h
  constructor
  · rintro ⟨a, ha⟩
    rw [h1, solverRun_assigned_notin e cw cap _ l₂ _ a c hcl₂,
      solverStep_assigned_mem] at ha
    rcases ha with ha | ⟨_, hch⟩
    · exact absurd ha (hfreshB a)
    · have hmem := chosenFor_mem e cw cap _ _ c a hch
      obtain ⟨hae, hle⟩ := (solverCandidates_spec e cw cap _ c a).mp hmem
      exact ⟨a, hae, hle⟩
  · rintro ⟨a, hae, hle⟩
    have hmem : a ∈ solverCandidates e cw cap
        (solverRun e cw cap (solverSorted channels e cw)
          ((solverSorted channels e cw).takeWhile (fun d => decide (d ≠ c)))
          ⟨fun _ => 0, fun _ => ∅⟩) c :=
      (solverCandidates_spec e cw cap _ c a).mpr ⟨hae, hle⟩
    have hne : solverCandidates e cw cap
        (solverRun e cw cap (solverSorted channels e cw)
          ((solverSorted channels e cw).takeWhile (fun d => decide (d ≠ c)))
          ⟨fun _ => 0, fun _ => ∅⟩) c ≠ [] := by
      intro hnil
      rw [hnil] at hmem
      cases hmem
    cases hch : chosenFor e cw cap (solverSorted channels e cw)
        (solverRun e cw cap (solverSorted channels e cw)
          ((solverSorted channels e cw).takeWhile (fun d => decide (d ≠ c)))
          ⟨fun _ => 0, fun _ => ∅⟩) c with
    | none => exact absurd ((chosenFor_none_iff e cw cap _ _ c).mp hch) hne
    | some ch =>
      refine ⟨ch, ?_⟩
      rw [h1]
      apply solverRun_assigned_mono
      rw [solverStep_assigned_mem]
      exact Or.inr ⟨rfl, hch⟩

/-- C3: on a duplicate-free channel list with nonnegative capacities (the
eligibility map staying inside the account list, as the reassign job
guarantees), the greedy solver never exceeds any account's capacity, and a
chat with nonempty eligibility is assigned to some account iff, at the moment
the loop considers it, some eligible account's `load + weight(c)` still fits
its capacity. -/
theorem assign_channels_balanced_coverage (channels : List ChatId)
    (e : ChatId → List AccountId) (cw : ChatId → Option ℚ) (accounts : List AccountId)
    (cap : AccountId → WithTop ℚ)
    (hnd : channels.Nodup) (hcap : ∀ a, (0 : WithTop ℚ) ≤ cap a)
    (helig : ∀ c a, a ∈ e c → a ∈ accounts) :
    (∀ a, ((((assign_channels_balanced channels e cw accounts cap).get a).sum
      (weightOf cw) : ℚ) : WithTop ℚ) ≤ cap a) ∧
    (∀ c ∈ channels, e c ≠ [] →
      ((∃ a, c ∈ (assign_channels_balanced channels e cw accounts cap).get a) ↔
        ∃ a ∈ e c,
          ((loadsBefore channels e cw cap c a + weightOf cw c : ℚ) : WithTop ℚ) ≤ cap a)) := by
  obtain ⟨_, h2, _, h4⟩ := assign_channels_balanced_inv channels e cw cap hnd
  have hload : ∀ a, (((solverRun e cw cap (solverSorted channels e cw)
      (solverSorted channels e cw) ⟨fun _ => 0, fun _ => ∅⟩).load a : ℚ) : WithTop ℚ) ≤
      cap a := by
    apply solverRun_load_le_cap
    intro a
    simpa using hcap a
  constructor
  · intro a
    rw [assign_channels_balanced_get]
    by_cases h : a ∈ accounts
    · rw [if_pos h, ← h4 a]
      exact hload a
    · rw [if_neg h]
      simpa using hcap a
  · intro c hc he
    have hbridge : (∃ a, c ∈ (assign_channels_balanced channels e cw accounts cap).get a) ↔
        (∃ a, c ∈ (solverRun e cw cap (solverSorted channels e cw)
          (solverSorted channels e cw) ⟨fun _ => 0, fun _ => ∅⟩).assigned a) := by
      constructor
      · rintro ⟨a, ha⟩
        rw [assign_channels_balanced_get] at ha
        by_cases h : a ∈ accounts
        · rw [if_pos h] at ha
          exact ⟨a, ha⟩
        · rw [if_neg h] at ha
          simp at ha
      · rintro ⟨a, ha⟩
        have hacc : a ∈ accounts := helig c a (h2 a c ha)
        refine ⟨a, ?_⟩
        rw [assign_channels_balanced_get, if_pos hacc]
        exact ha
    rw [hbridge]
    exact solver_member_iff channels e cw cap hnd c hc he

/-- Witness for `assign_channels_balanced_coverage`: chats `1, 2`, accounts
`a, b`, both eligible everywhere, weight `1`, capacity `1` each. -/
theorem assign_channels_balanced_coverage_witness :
    (([(1 : ChatId), 2].Nodup ∧ (∀ x : AccountId, (0 : WithTop ℚ) ≤ ((1 : ℚ) : WithTop ℚ)) ∧
      (∀ c : ChatId, ∀ x : AccountId, x ∈ ["a", "b"] → x ∈ ["a", "b"])) ∧
     ((∀ a, ((((assign_channels_balanced [1, 2] (fun _ => ["a", "b"]) (fun _ => none)
        ["a", "b"] (fun _ => ((1 : ℚ) : WithTop ℚ))).get a).sum
        (weightOf (fun _ => none)) : ℚ) : WithTop ℚ) ≤ ((1 : ℚ) : WithTop ℚ)) ∧
      (∀ c ∈ [(1 : ChatId), 2], (["a", "b"] : List AccountId) ≠ [] →
        ((∃ a, c ∈ (assign_channels_balanced [1, 2] (fun _ => ["a", "b"]) (fun _ => none)
          ["a", "b"] (fun _ => ((1 : ℚ) : WithTop ℚ))).get a) ↔
          ∃ a ∈ (["a", "b"] : List AccountId),
            ((loadsBefore [1, 2] (fun _ => ["a", "b"]) (fun _ => none)
              (fun _ => ((1 : ℚ) : WithTop ℚ)) c a +
                weightOf (fun _ => none) c : ℚ) : WithTop ℚ) ≤ ((1 : ℚ) : WithTop ℚ))))) := by
  have h01 : (0 : WithTop ℚ) ≤ ((1 : ℚ) : WithTop ℚ) := by decide
  exact ⟨⟨by decide, fun _ => h01, fun _ x h => h⟩,
   assign_channels_balanced_coverage [1, 2] (fun _ => ["a", "b"]) (fun _ => none)
     ["a", "b"] (fun _ => ((1 : ℚ) : WithTop ℚ)) (by decide) (fun _ => h01)
     (fun _ x h => h)⟩

theorem pyMinKey_cons {α β : Type} (lt : β → β → Bool) (key : α → β) (x y : α)
    (ys : List α) :
    pyMinKey lt key x (y :: ys) =
      pyMinKey lt key (if lt (key y) (key x) then y else x) ys := rfl

/-- Characterization of Python `min(..., key=...)` for a strict comparison
that is irreflexive, transitive, and total on keys: the result is the first
element attaining the minimal key. -/
theorem pyMinKey_spec {α β : Type} (lt : β → β → Bool) (key : α → β)
    (hirrefl : ∀ p, lt p p = false)
    (htrans : ∀ p q r, lt p q = true → lt q r = true → lt p r = true)
    (htotal : ∀ p q, lt p q = false → lt q p = false → p = q)
    (x : α) (xs : List α) :
    (∀ y ∈ x :: xs, lt (key y) (key (pyMinKey lt key x xs)) = false) ∧
    ∃ l₁ l₂, x :: xs = l₁ ++ pyMinKey lt key x xs :: l₂ ∧
      ∀ y ∈ l₁, lt (key (pyMinKey lt key x xs)) (key y) = true := by
  induction xs generalizing x with
  | nil =>
    refine ⟨?_, [], [], rfl, by simp⟩
    intro y hy
    rcases List.mem_cons.mp hy with rfl | hy
    · exact hirrefl _
    · cases hy
  | cons y ys ih =>
    rw [pyMinKey_cons]
    by_cases hyx : lt (key y) (key x) = true
    · rw [if_pos hyx]
      obtain ⟨ih1, l₁, l₂, ihsplit, ihlt⟩ := ih y
      have hym : lt (key y) (key (pyMinKey lt key y ys)) = false :=
        ih1 y (List.mem_cons_self y ys)
      refine ⟨?_, x :: l₁, l₂, ?_, ?_⟩
      · intro z hz
        rcases List.mem_cons.mp hz with rfl | hz
        · by_cases hxm : lt (key z) (key (pyMinKey lt key y ys)) = true
          · exact absurd (htrans _ _ _ hyx hxm) (by rw [hym]; simp)
          · exact Bool.not_eq_true _ ▸ eq_false_of_ne_true hxm
        · exact ih1 z hz
      · rw [List.cons_append, ← ihsplit]
      · intro z hz
        rcases List.mem_cons.mp hz with rfl | hz
        · by_cases hmy : lt (key (pyMinKey lt key y ys)) (key y) = true
          · exact htrans _ _ _ hmy hyx
          · have hk : key (pyMinKey lt key y ys) = key y :=
              htotal _ _ (eq_false_of_ne_true hmy) hym
            rw [hk]
            exact hyx
        · exact ihlt z hz
    · have hyx' : lt (key y) (key x) = false := eq_false_of_ne_true hyx
      rw [if_neg hyx]
      obtain ⟨ih1, l₁, l₂, ihsplit, ihlt⟩ := ih x
      have hxm : lt (key x) (key (pyMinKey lt key x ys)) = false :=
        ih1 x (List.mem_cons_self x ys)
      have hym : lt (key y) (key (pyMinKey lt key x ys)) = false := by
        by_cases h : lt (key y) (key (pyMinKey lt key x ys)) = true
        · by_cases hmx : lt (key (pyMinKey lt key x ys)) (key x) = true
          · exact absurd (htrans _ _ _ h hmx) (by rw [hyx']; simp)
          · have hk : key (pyMinKey lt key x ys) = key x :=
              htotal _ _ (eq_false_of_ne_true hmx) hxm
            rw [hk] at h
            exact absurd h (by rw [hyx']; simp)
        · exact eq_false_of_ne_true h
      refine ⟨?_, ?_⟩
      · intro z hz
        rcases List.mem_cons.mp hz with hzx | hz
        · rw [hzx]
          exact ih1 x (List.mem_cons_self x ys)
        · rcases List.mem_cons.mp hz with hzy | hz
          · rw [hzy]
            exact hym
          · exact ih1 z (List.mem_cons.mpr (Or.inr hz))
      · cases l₁ with
        | nil =>
          have hx : x = pyMinKey lt key x ys := (List.cons.injEq _ _ _ _).mp ihsplit |>.1
          refine ⟨[], y :: ys, ?_, by simp⟩
          rw [List.nil_append, ← hx]
        | cons x₁ l₁' =>
          have hx : x = x₁ ∧ ys = l₁' ++ pyMinKey lt key x ys :: l₂ := by
            rw [List.cons_append] at ihsplit
            exact ⟨((List.cons.injEq _ _ _ _).mp ihsplit).1,
              ((List.cons.injEq _ _ _ _).mp ihsplit).2⟩
          have hmx1 : lt (key (pyMinKey lt key x ys)) (key x) = true := by
            have := ihlt x₁ (List.mem_cons_self x₁ l₁')
            rw [← hx.1] at this
            exact this
          have hmy1 : lt (key (pyMinKey lt key x ys)) (key y) = true := by
            by_cases hxy : lt (key x) (key y) = true
            · exact htrans _ _ _ hmx1 hxy
            · have hk : key y = key x := htotal _ _ hyx' (eq_false_of_ne_true hxy)
              rw [hk]
              exact hmx1
          refine ⟨x :: y :: l₁', l₂, ?_, ?_⟩
          · rw [List.cons_append, List.cons_append, ← hx.2]
          · intro z hz
            rcases List.mem_cons.mp hz with rfl | hz
            · rw [hx.1] at hmx1 ⊢
              rw [← hx.1] at hmx1 ⊢
              exact hmx1
            · rcases List.mem_cons.mp hz with rfl | hz
              · exact hmy1
              · have := ihlt z (List.mem_cons.mpr (Or.inr hz))
                exact this

theorem loadKeyLt_irrefl (p : ℚ × Nat) : loadKeyLt p p = false := by
  simp [loadKeyLt]

theorem loadKeyLt_trans (p q r : ℚ × Nat) (h1 : loadKeyLt p q = true)
    (h2 : loadKeyLt q r = true) : loadKeyLt p r = true := by
  simp only [loadKeyLt, Bool.or_eq_true, Bool.and_eq_true, decide_eq_true_eq] at *
  rcases h1 with h1 | ⟨h1e, h1l⟩ <;> rcases h2 with h2 | ⟨h2e, h2l⟩
  · exact Or.inl (lt_trans h1 h2)
  · exact Or.inl (h2e ▸ h1)
  · exact Or.inl (h1e ▸ h2)
  · exact Or.inr ⟨h1e.trans h2e, Nat.lt_trans h1l h2l⟩

theorem loadKeyLt_total (p q : ℚ × Nat) (h1 : loadKeyLt p q = false)
    (h2 : loadKeyLt q p = false) : p = q := by
  simp only [loadKeyLt, Bool.or_eq_false_iff, Bool.and_eq_false_iff,
    decide_eq_false_iff_not] at h1 h2
  have he : p.1 = q.1 := le_antisymm (not_lt.mp h2.1) (not_lt.mp h1.1)
  have hn : p.2 = q.2 := by
    rcases h1.2 with h | h
    · exact absurd he h
    · rcases h2.2 with h' | h'
      · exact absurd he.symm h'
      · exact Nat.le_antisymm (Nat.not_lt.mp h') (Nat.not_lt.mp h)
  exact Prod.ext he hn

/-- C4 (amended): whenever the loop body of `assign_channels_balanced` picks an
account for a chat, the chosen account is a candidate (eligible, with room
left), its `(load, residual_flex)` key is minimal among all candidates, and it
is the *first* candidate in the chat's eligible-account list attaining that
minimal key — ties are broken by position in `eligible[c]`, not by account
id — and the chat is inserted into exactly that account's set.  Here
`residual_flex a` is the code's flexibility count (`cc not in assigned[a]`):
the chats of the sorted pool not yet in `a`'s *own* assigned set for which
`a` is eligible, so chats already assigned to *other* accounts still count —
unlike the spec's "still-unassigned chats". -/
theorem solverStep_choice (e : ChatId → List AccountId) (cw : ChatId → Option ℚ)
    (cap : AccountId → WithTop ℚ) (s : List ChatId) (st : SolverState) (c : ChatId)
    (ch : AccountId) (h : chosenFor e cw cap s st c = some ch) :
    ch ∈ solverCandidates e cw cap st c ∧
    (∀ a ∈ solverCandidates e cw cap st c,
      loadKeyLt (st.load a, residual_flex e s st a)
        (st.load ch, residual_flex e s st ch) = false) ∧
    (∃ l₁ l₂, solverCandidates e cw cap st c = l₁ ++ ch :: l₂ ∧
      ∀ a ∈ l₁,
        loadKeyLt (st.load ch, residual_flex e s st ch)
          (st.load a, residual_flex e s st a) = true) ∧
    (solverStep e cw cap s st c).assigned ch = insert c (st.assigned ch) := by
  have hmem := chosenFor_mem e cw cap s st c ch h
  cases hc : solverCandidates e cw cap st c with
  | nil =>
    rw [hc] at hmem
    cases hmem
  | cons a rest =>
    have hch : ch = pyMinKey loadKeyLt
        (fun a => (st.load a, residual_flex e s st a)) a rest := by
      unfold chosenFor at h
      rw [hc] at h
      exact (Option.some_inj.mp h).symm
    obtain ⟨hmin, l₁, l₂, hsplit, hfirst⟩ :=
      pyMinKey_spec loadKeyLt (fun a => (st.load a, residual_flex e s st a))
        loadKeyLt_irrefl loadKeyLt_trans loadKeyLt_total a rest
    rw [hc] at hmem
    refine ⟨hmem, ?_, ⟨l₁, l₂, ?_, ?_⟩, ?_⟩
    · intro b hb
      have := hmin b hb
      rw [hch]
      exact this
    · rw [hsplit, hch]
    · intro b hb
      have := hfirst b hb
      rw [hch]
      exact this
    · unfold solverStep
      rw [h]
      simp

/-- Witness for `solverStep_choice`: chat `5`, eligible list `["b", "a"]`,
fresh state; the loop picks `"b"`. -/
theorem solverStep_choice_witness :
    (chosenFor (fun _ => ["b", "a"]) (fun _ => none) (fun _ => (⊤ : WithTop ℚ))
      (solverSorted [5] (fun _ => ["b", "a"]) (fun _ => none))
      ⟨fun _ => 0, fun _ => ∅⟩ 5 = some "b") ∧
    ("b" ∈ solverCandidates (fun _ => ["b", "a"]) (fun _ => none)
      (fun _ => (⊤ : WithTop ℚ)) ⟨fun _ => 0, fun _ => ∅⟩ 5 ∧
    (∀ a ∈ solverCandidates (fun _ => ["b", "a"]) (fun _ => none)
        (fun _ => (⊤ : WithTop ℚ)) ⟨fun _ => 0, fun _ => ∅⟩ 5,
      loadKeyLt
        ((⟨fun _ => 0, fun _ => ∅⟩ : SolverState).load a,
          residual_flex (fun _ => ["b", "a"])
            (solverSorted [5] (fun _ => ["b", "a"]) (fun _ => none))
            ⟨fun _ => 0, fun _ => ∅⟩ a)
        ((⟨fun _ => 0, fun _ => ∅⟩ : SolverState).load "b",
          residual_flex (fun _ => ["b", "a"])
            (solverSorted [5] (fun _ => ["b", "a"]) (fun _ => none))
            ⟨fun _ => 0, fun _ => ∅⟩ "b") = false) ∧
    (∃ l₁ l₂, solverCandidates (fun _ => ["b", "a"]) (fun _ => none)
        (fun _ => (⊤ : WithTop ℚ)) ⟨fun _ => 0, fun _ => ∅⟩ 5 = l₁ ++ "b" :: l₂ ∧
      ∀ a ∈ l₁,
        loadKeyLt
          ((⟨fun _ => 0, fun _ => ∅⟩ : SolverState).load "b",
            residual_flex (fun _ => ["b", "a"])
              (solverSorted [5] (fun _ => ["b", "a"]) (fun _ => none))
              ⟨fun _ => 0, fun _ => ∅⟩ "b")
          ((⟨fun _ => 0, fun _ => ∅⟩ : SolverState).load a,
            residual_flex (fun _ => ["b", "a"])
              (solverSorted [5] (fun _ => ["b", "a"]) (fun _ => none))
              ⟨fun _ => 0, fun _ => ∅⟩ a) = true) ∧
    (solverStep (fun _ => ["b", "a"]) (fun _ => none) (fun _ => (⊤ : WithTop ℚ))
      (solverSorted [5] (fun _ => ["b", "a"]) (fun _ => none))
      ⟨fun _ => 0, fun _ => ∅⟩ 5).assigned "b" =
        insert 5 ((⟨fun _ => 0, fun _ => ∅⟩ : SolverState).assigned "b")) :=
  ⟨by decide,
   solverStep_choice (fun _ => ["b", "a"]) (fun _ => none) (fun _ => (⊤ : WithTop ℚ))
     (solverSorted [5] (fun _ => ["b", "a"]) (fun _ => none))
     ⟨fun _ => 0, fun _ => ∅⟩ 5 "b" (by decide)⟩


/-- Counterexample to C5 as stated: with an *empty* `allowed_ids` the handler
publishes nothing (the entire publish path sits inside `if allowed_ids:`),
whereas the claim requires the payload to be built and published in that
case. -/
theorem realtimeHandler_empty_counterexample :
    realtimeHandler "realtime_fanout" ∅
      ⟨some 5, 7, "msg", some "alice", some "chat"⟩ = none := by
  decide

/-- C5 (amended): the realtime handler publishes an event iff `allowed_ids`
is non-empty and the event's chat id is in it; every event is dropped when
`allowed_ids` is empty, when the chat id is absent, or when it is not
allowed; a published event carries the `NewMessage` payload (with `@`-
normalized handles taken from fields already on the event) with persistent
delivery on the fanout exchange. -/
theorem realtimeHandler_spec (exchangeName : String) (allowed_ids : Finset Int)
    (ev : TgEvent) :
    (allowed_ids = ∅ → realtimeHandler exchangeName allowed_ids ev = none) ∧
    (∀ cid, ev.chat_id = some cid → cid ∈ allowed_ids →
      realtimeHandler exchangeName allowed_ids ev =
        some ⟨exchangeName, true,
          ⟨"NewMessage", some cid, ev.message_id, ev.message_dict,
            atHandle ev.msg_sender_username, atHandle ev.msg_chat_username⟩⟩) ∧
    ((ev.chat_id = none ∨ ∀ cid, ev.chat_id = some cid → cid ∉ allowed_ids) →
      realtimeHandler exchangeName allowed_ids ev = none) := by
  refine ⟨?_, ?_, ?_⟩
  · intro h
    unfold realtimeHandler
    rw [if_neg]
    rw [h]
    exact Finset.not_nonempty_empty
  · intro cid hcid hmem
    have hne : allowed_ids.Nonempty := ⟨cid, hmem⟩
    unfold realtimeHandler
    rw [if_pos hne, hcid]
    simp [hmem]
  · intro h
    unfold realtimeHandler
    by_cases hne : allowed_ids.Nonempty
    · rw [if_pos hne]
      rcases h with h | h
      · rw [h]
      · cases hc : ev.chat_id with
        | none => rfl
        | some cid =>
          simp only
          rw [if_neg (h cid hc)]
    · rw [if_neg hne]

/-- Witness for `realtimeHandler_spec`: `allowed_ids = {5}`, event on chat 5
is published with the expected payload. -/
theorem realtimeHandler_spec_witness :
    realtimeHandler "realtime_fanout" {5} ⟨some 5, 7, "msg", some "alice", none⟩ =
      some ⟨"realtime_fanout", true,
        ⟨"NewMessage", some 5, 7, "msg", atHandle (some "alice"), atHandle none⟩⟩ :=
  (realtimeHandler_spec "realtime_fanout" {5}
    ⟨some 5, 7, "msg", some "alice", none⟩).2.1 5 rfl (by decide)

/-- C6 (amended): when `backfill_via_rabbit` is enabled (the default), every
effect of a backfill run is a persistent publish of a `HistoricalMessage`
payload on the historical exchange — in particular no direct relational-store
write ever happens. -/
theorem backfill_via_rabbit_only_publishes (exchangeName : String)
    (chat_id_numeric : Int) (norm_target_username : Option String)
    (last_known_message_id : Option Int) (from_dt : Int) (batch_size : Nat)
    (msgs : List TgHistMsg) :
    ∀ eff ∈ backfillEffects true exchangeName chat_id_numeric norm_target_username
      last_known_message_id from_dt batch_size msgs,
      ∃ m : TgHistMsg, eff = .publish exchangeName true
        (histPayloadOf chat_id_numeric norm_target_username m) ∧
        (histPayloadOf chat_id_numeric norm_target_username m).event =
          "HistoricalMessage" := by
  suffices h : ∀ buffer msgs,
      ∀ eff ∈ backfillLoop true exchangeName chat_id_numeric norm_target_username
        last_known_message_id from_dt batch_size buffer msgs,
        ∃ m : TgHistMsg, eff = .publish exchangeName true
          (histPayloadOf chat_id_numeric norm_target_username m) ∧
          (histPayloadOf chat_id_numeric norm_target_username m).event =
            "HistoricalMessage" by
    exact h [] msgs
  intro buffer msgs
  induction msgs generalizing buffer with
  | nil =>
    intro eff heff
    simp [backfillLoop] at heff
  | cons m rest ih =>
    intro eff heff
    unfold backfillLoop at heff
    by_cases h1 : watermarkStop last_known_message_id m.id = true
    · rw [if_pos h1] at heff
      simp at heff
    · rw [if_neg h1] at heff
      by_cases h2 : last_known_message_id = none ∧ m.date < from_dt
      · rw [if_pos h2] at heff
        simp at heff
      · rw [if_neg h2, if_pos rfl] at heff
        rcases List.mem_cons.mp heff with heq | hmem
        · exact ⟨m, heq, rfl⟩
        · exact ih buffer eff hmem

/-- Witness for `backfill_via_rabbit_only_publishes`: one fresh message, no
watermark, inside the horizon. -/
theorem backfill_via_rabbit_only_publishes_witness :
    ∃ m : TgHistMsg,
      BackfillEffect.publish "historical_fanout" true
          (histPayloadOf (-100) (some "@c") ⟨10, 50, -100, none, some "hi", "d"⟩) =
        .publish "historical_fanout" true
          (histPayloadOf (-100) (some "@c") m) ∧
      (histPayloadOf (-100) (some "@c") m).event = "HistoricalMessage" :=
  backfill_via_rabbit_only_publishes "historical_fanout" (-100) (some "@c") none 0 200
    [⟨10, 50, -100, none, some "hi", "d"⟩]
    (.publish "historical_fanout" true
      (histPayloadOf (-100) (some "@c") ⟨10, 50, -100, none, some "hi", "d"⟩))
    (by decide)

/-- Counterexample to C6 as stated: with `backfill_via_rabbit = False` (the
`BACKFILL_VIA_RABBIT` env toggle) the very same run writes the rows directly
to the relational store through `_save_messages_batch` and publishes
nothing. -/
theorem backfill_direct_write_counterexample :
    backfillEffects false "historical_fanout" (-100) (some "@c") none 0 200
      [⟨10, 50, -100, none, some "hi", "d"⟩] =
      [.saveBatch [⟨-100, 10, none, none, some "@c", some "hi", 50⟩]] := by
  decide

theorem flatten_map_filter {α β : Type} (p : α → Bool) (f : α → List β) (l : List α)
    (h : ∀ x ∈ l, p x = false → f x = []) :
    (l.map f).flatten = ((l.filter p).map f).flatten := by
  induction l with
  | nil => rfl
  | cons x xs ih =>
    have hxs : ∀ y ∈ xs, p y = false → f y = [] := fun y hy =>
      h y (List.mem_cons.mpr (Or.inr hy))
    by_cases hp : p x = true
    · rw [List.filter_cons_of_pos hp]
      simp only [List.map_cons, List.flatten_cons]
      rw [ih hxs]
    · have hp' : p x = false := eq_false_of_ne_true hp
      rw [List.filter_cons_of_neg (by rw [hp']; simp)]
      simp only [List.map_cons, List.flatten_cons]
      rw [h x (List.mem_cons_self x xs) hp', List.nil_append, ih hxs]

/-- C9 (amended): the global `muted_subcategories` check is applied per domain
entry — an entry carrying a muted subcategory contributes no destinations, and
the lookup's result equals what the remaining (non-muted) entries alone
produce; entries without a muted subcategory still route even when another
entry of the same message is muted. -/
theorem router_muted_subcategory_per_domain (cfg : RouterCfg)
    (domains : List DomainInfoM)
    (locations : List (Option String × Option String)) :
    (∀ info ∈ domains, (∃ s ∈ info.subcategories, s ∈ cfg.muted_subcategories) →
      routeDomainInfo cfg (normalize_locations locations) info = []) ∧
    get_chat_ids_for_domains cfg domains locations =
      get_chat_ids_for_domains cfg
        (domains.filter (fun info => !(info.subcategories.any
          (fun s => decide (s ∈ cfg.muted_subcategories))))) locations := by
  have hmuted : ∀ info : DomainInfoM,
      (∃ s ∈ info.subcategories, s ∈ cfg.muted_subcategories) →
      routeDomainInfo cfg (normalize_locations locations) info = [] := by
    rintro info ⟨s, hs, hsmuted⟩
    unfold routeDomainInfo
    rw [if_pos]
    constructor
    · intro hnil
      rw [hnil] at hs
      cases hs
    · rw [List.any_eq_true]
      exact ⟨s, hs, by simpa using hsmuted⟩
  refine ⟨fun info _ => hmuted info, ?_⟩
  unfold get_chat_ids_for_domains
  by_cases hd : domains = []
  · rw [if_pos hd, hd]
    rfl
  · rw [if_neg hd]
    have hdrop : ∀ info ∈ domains,
        (!(info.subcategories.any (fun s => decide (s ∈ cfg.muted_subcategories)))) =
          false →
        routeDomainInfo cfg (normalize_locations locations) info = [] := by
      intro info _ hfalse
      apply hmuted
      rw [Bool.not_eq_false', List.any_eq_true] at hfalse
      obtain ⟨s, hs, hsd⟩ := hfalse
      exact ⟨s, hs, by simpa using hsd⟩
    rw [flatten_map_filter _ _ domains hdrop]
    by_cases hf : domains.filter (fun info => !(info.subcategories.any
        (fun s => decide (s ∈ cfg.muted_subcategories)))) = []
    · rw [if_pos hf, hf]
      rfl
    · rw [if_neg hf]

/-- Witness for `router_muted_subcategory_per_domain`: a LAW entry carrying
the muted subcategory `"BAD"` contributes nothing. -/
theorem router_muted_subcategory_per_domain_witness :
    routeDomainInfo
      ⟨[("AUTO", .scalarV (.cid (-500)))], ["BAD"], some (-999)⟩
      (normalize_locations []) ⟨.LAW, ["BAD"]⟩ = [] :=
  (router_muted_subcategory_per_domain
    ⟨[("AUTO", .scalarV (.cid (-500)))], ["BAD"], some (-999)⟩
    [⟨.LAW, ["BAD"]⟩, ⟨.AUTO, []⟩] []).1 ⟨.LAW, ["BAD"]⟩ (by decide)
    ⟨"BAD", by decide, by decide⟩

/-- Counterexample to C9 as stated: a message whose LAW entry carries the
globally muted subcategory `"BAD"` still routes through its AUTO entry, so the
lookup yields a destination instead of rejecting the whole message. -/
theorem router_muted_subcategory_counterexample :
    get_chat_ids_for_domains
      ⟨[("AUTO", .scalarV (.cid (-500)))], ["BAD"], some (-999)⟩
      [⟨.LAW, ["BAD"]⟩, ⟨.AUTO, []⟩] [] = [-500] := by
  decide

theorem lookup_mem_pairs {α β : Type} [DecidableEq α] (l : List (α × β)) (a : α)
    (b : β) (h : l.lookup a = some b) : (a, b) ∈ l := by
  induction l with
  | nil => cases h
  | cons kv rest ih =>
    obtain ⟨k, v⟩ := kv
    by_cases hk : a = k
    · subst hk
      simp [List.lookup] at h
      rw [h]
      exact List.mem_cons_self _ _
    · have hb : (a == k) = false := beq_eq_false_iff_ne.mpr hk
      simp only [List.lookup, hb] at h
      exact List.mem_cons.mpr (Or.inr (ih h))

theorem domain_code_of_none (c : Nat)
    (h : DOMAIN_CODE_TO_VALUE.lookup c = some DomainType.NONE) : c = 12 := by
  have hm := lookup_mem_pairs DOMAIN_CODE_TO_VALUE c DomainType.NONE h
  unfold DOMAIN_CODE_TO_VALUE at hm
  simp at hm
  exact hm

theorem buildDomains_map_fst (m : List (Nat × List Nat)) (codes : List Nat)
    (ds : List (DomainType × List String)) (h : buildDomains m codes = .ok ds) :
    ds.map Prod.fst =
      codes.map (fun c => (DOMAIN_CODE_TO_VALUE.lookup c).getD .NONE) := by
  induction codes generalizing ds with
  | nil =>
    unfold buildDomains at h
    simp only [Except.ok.injEq] at h
    rw [← h]
    rfl
  | cons c rest ih =>
    unfold buildDomains at h
    split at h
    · exact Except.noConfusion h
    · rename_i dv hdv
      split at h
      · exact Except.noConfusion h
      · split at h
        · exact Except.noConfusion h
        · rename_i subs _
          split at h
          · exact Except.noConfusion h
          · rename_i tail htail
            simp only [Except.ok.injEq] at h
            rw [← h]
            simp only [List.map_cons]
            rw [ih tail htail, hdv]
            rfl

theorem buildDomains_none_mem (m : List (Nat × List Nat)) (codes : List Nat)
    (ds : List (DomainType × List String)) (h : buildDomains m codes = .ok ds)
    (hnone : DomainType.NONE ∈ ds.map Prod.fst) : 12 ∈ codes := by
  induction codes generalizing ds with
  | nil =>
    unfold buildDomains at h
    simp only [Except.ok.injEq] at h
    rw [← h] at hnone
    cases hnone
  | cons c rest ih =>
    unfold buildDomains at h
    split at h
    · exact Except.noConfusion h
    · rename_i dv hdv
      split at h
      · exact Except.noConfusion h
      · split at h
        · exact Except.noConfusion h
        · split at h
          · exact Except.noConfusion h
          · rename_i tail htail
            simp only [Except.ok.injEq] at h
            rw [← h] at hnone
            simp only [List.map_cons, List.mem_cons] at hnone
            rcases hnone with hhead | htailmem
            · have : dv = DomainType.NONE := hhead.symm
              rw [this] at hdv
              exact List.mem_cons.mpr (Or.inl (domain_code_of_none c hdv).symm)
            · exact List.mem_cons.mpr (Or.inr (ih tail htail htailmem))

theorem two_members_one_lt_length {α : Type} (l : List α) (a b : α) (ha : a ∈ l)
    (hb : b ∈ l) (hab : a ≠ b) : 1 < l.length := by
  cases l with
  | nil => cases ha
  | cons x rest =>
    cases rest with
    | nil =>
      rcases List.mem_cons.mp ha with ha' | ha'
      · rcases List.mem_cons.mp hb with hb' | hb'
        · exact absurd (ha'.trans hb'.symm) hab
        · cases hb'
      · cases ha'
    | cons y rest' => simp [List.length_cons]

/-- C7: for every compact line the parser accepts whose raw domain-code list
carries the `NONE` code (12) together with at least one non-`NONE` code, the
returned domains are exactly the non-`NONE` codes in order (subcategory
entries attached to `NONE` are dropped with it) and `NONE` does not appear;
`NONE` appears in the result only when `[12]` was the entire code list. -/
theorem parse_compact_line_none_coalescing (line : String) (codes : List Nat)
    (r : CompactMsg) (hcodes : domainCodesOfLine line = some codes)
    (hok : parse_compact_line line = .ok r) :
    ((12 ∈ codes ∧ ∃ c ∈ codes, c ≠ 12) →
      r.domains.map Prod.fst =
        (codes.filter (fun c => decide (c ≠ 12))).map
          (fun c => (DOMAIN_CODE_TO_VALUE.lookup c).getD .NONE) ∧
      DomainType.NONE ∉ r.domains.map Prod.fst) ∧
    (DomainType.NONE ∈ r.domains.map Prod.fst → codes = [12]) := by
  simp only [parse_compact_line] at hok
  simp only [domainCodesOfLine] at hcodes
  split at hok
  case isFalse => exact Except.noConfusion hok
  rename_i hlen
  rw [if_pos hlen] at hcodes
  split at hcodes
  case h_1 => exact Option.noConfusion hcodes
  rename_i dc0 heq
  have hc : (if dc0 = [] then [12] else dc0) = codes := Option.some_inj.mp hcodes
  simp only [parseCompactFields] at hok
  split at hok
  case isTrue => exact Except.noConfusion hok
  split at hok
  case h_1 => exact Except.noConfusion hok
  split at hok
  case h_1 => exact Except.noConfusion hok
  split at hok
  case h_1 => exact Except.noConfusion hok
  rename_i dc0' heq'
  have hdc0 : dc0' = dc0 := Except.ok.inj (heq'.symm.trans heq)
  subst hdc0
  rw [hc] at hok
  split at hok
  case h_1 => exact Except.noConfusion hok
  rename_i sm0 heqsm
  generalize hg2 : (if 12 ∈ codes ∧ codes.length > 1 then
    sm0.filter (fun kv => decide (kv.1 ≠ 12)) else sm0) = smC at hok
  generalize hg1 : (if 12 ∈ codes ∧ codes.length > 1 then
    codes.filter (fun code => decide (code ≠ 12)) else codes) = dcC at hok
  split at hok
  case isTrue => exact Except.noConfusion hok
  split at hok
  case h_1 => exact Except.noConfusion hok
  rename_i domains hbuild
  split at hok
  case isTrue => exact Except.noConfusion hok
  split at hok
  case h_1 => exact Except.noConfusion hok
  split at hok
  case isTrue => exact Except.noConfusion hok
  have hr : r.domains = domains := by
    have := Except.ok.inj hok
    rw [← this]
  rw [← hg1] at hbuild
  refine ⟨?_, ?_⟩
  · rintro ⟨h12, c, hcmem, hcne⟩
    have hlen2 : 1 < codes.length :=
      two_members_one_lt_length codes 12 c h12 hcmem (fun h => hcne (h.symm))
    have hcond : 12 ∈ codes ∧ codes.length > 1 := ⟨h12, hlen2⟩
    rw [if_pos hcond] at hbuild
    constructor
    · rw [hr]
      exact buildDomains_map_fst _ _ _ hbuild
    · intro hnone
      rw [hr] at hnone
      have h12f := buildDomains_none_mem _ _ _ hbuild hnone
      rw [List.mem_filter] at h12f
      simp at h12f
  · intro hnone
    rw [hr] at hnone
    by_cases hcond : 12 ∈ codes ∧ codes.length > 1
    · rw [if_pos hcond] at hbuild
      have h12f := buildDomains_none_mem _ _ _ hbuild hnone
      rw [List.mem_filter] at h12f
      simp at h12f
    · rw [if_neg hcond] at hbuild
      have h12 : 12 ∈ codes := buildDomains_none_mem _ _ _ hbuild hnone
      have hlen2 : ¬ codes.length > 1 := fun hl => hcond ⟨h12, hl⟩
      cases codes with
      | nil => cases h12
      | cons x rest =>
        cases rest with
        | nil =>
          rcases List.mem_cons.mp h12 with hx | hx
          · rw [hx]
          · cases hx
        | cons y rest' =>
          exact absurd (by simp [List.length_cons]) hlen2

/-- Witness for `parse_compact_line_none_coalescing`: the line
`"7|1|12,1|12=1|0|3|ok"` carries `NONE` (with a subcategory entry) next to
domain 1; the parser drops both and returns only
`CONSTRUCTION_AND_REPAIR`. -/
theorem parse_compact_line_none_coalescing_witness :
    ((12 ∈ ([12, 1] : List Nat) ∧ ∃ c ∈ ([12, 1] : List Nat), c ≠ 12) →
      ([(DomainType.CONSTRUCTION_AND_REPAIR, ([] : List String))].map Prod.fst =
        ((([12, 1] : List Nat).filter (fun c => decide (c ≠ 12))).map
          (fun c => (DOMAIN_CODE_TO_VALUE.lookup c).getD .NONE)) ∧
       DomainType.NONE ∉
        [(DomainType.CONSTRUCTION_AND_REPAIR, ([] : List String))].map Prod.fst)) ∧
    (DomainType.NONE ∈
        [(DomainType.CONSTRUCTION_AND_REPAIR, ([] : List String))].map Prod.fst →
      ([12, 1] : List Nat) = [12]) :=
  parse_compact_line_none_coalescing "7|1|12,1|12=1|0|3|ok" [12, 1]
    ⟨"7", [.REQUEST], [(.CONSTRUCTION_AND_REPAIR, [])], false, 3, "ok"⟩
    (by decide) (by decide)

theorem order_id_map_lookup_mem (start : Nat) (messages : List InMsg) (k v : String)
    (h : (order_id_map start messages).lookup k = some v) :
    v ∈ messages.map InMsg.id := by
  induction messages generalizing start with
  | nil => cases h
  | cons m rest ih =>
    unfold order_id_map at h
    by_cases hk : k = toString start
    · subst hk
      simp [List.lookup] at h
      rw [← h]
      exact List.mem_cons_self _ _
    · have hb : (k == toString start) = false := beq_eq_false_iff_ne.mpr hk
      simp only [List.lookup, hb] at h
      exact List.mem_cons.mpr (Or.inr (ih (start + 1) h))

/-- C8 (amended): whenever the batch analyzer returns `ok=true`, every id
appearing in `classified_messages` is one of the batch's input ids (ids the
remap table does not know fail the whole batch as `parse_error`); nothing
guarantees an input id appears — a line the LLM omitted leaves its id in
neither `classified_messages` nor `parse_errors` (the ingestor later applies
the `missing_result` fallback). -/
theorem analyze_batch_classified_ids_from_input (llm_batch_size : Nat)
    (messages : List InMsg) (content : String) (classified : List CompactMsg)
    (errs : List ParseErrEntry)
    (h : analyze_messages_batch_content llm_batch_size messages content =
      .success classified errs) :
    ∀ m ∈ classified, m.id ∈ messages.map InMsg.id := by
  unfold analyze_messages_batch_content at h
  split at h
  case isTrue => exact AnalyzeOutcome.noConfusion h
  split at h
  case isTrue => exact AnalyzeOutcome.noConfusion h
  split at h
  case isTrue => exact AnalyzeOutcome.noConfusion h
  split at h
  case h_1 => exact AnalyzeOutcome.noConfusion h
  rename_i parsed parse_errors hpr
  split at h
  case isTrue => exact AnalyzeOutcome.noConfusion h
  rename_i hnounknown
  have hcl : classified = parsed.map (fun m =>
      { m with id := ((order_id_map 1 messages).lookup (pyStrip m.id)).getD m.id }) := by
    cases h
    rfl
  intro m hm
  rw [hcl] at hm
  obtain ⟨m0, hm0, hmap⟩ := List.mem_map.mp hm
  have hall : ∀ x ∈ parsed,
      ¬ ((order_id_map 1 messages).lookup (pyStrip x.id)).isNone = true := by
    intro x hx hnone
    apply hnounknown
    intro hfil
    have : (parsed.filter (fun m =>
        ((order_id_map 1 messages).lookup (pyStrip m.id)).isNone)) = [] :=
      List.map_eq_nil.mp hfil
    have hxf : x ∈ parsed.filter (fun m =>
        ((order_id_map 1 messages).lookup (pyStrip m.id)).isNone) :=
      List.mem_filter.mpr ⟨hx, hnone⟩
    rw [this] at hxf
    cases hxf
  have hsome : ((order_id_map 1 messages).lookup (pyStrip m0.id)).isSome := by
    have := hall m0 hm0
    cases hlk : (order_id_map 1 messages).lookup (pyStrip m0.id) with
    | none => exact absurd (by rw [hlk]; rfl) this
    | some v => rfl
  obtain ⟨v, hv⟩ := Option.isSome_iff_exists.mp hsome
  have hid : m.id = v := by
    rw [← hmap]
    simp [hv]
  rw [hid]
  exact order_id_map_lookup_mem 1 messages (pyStrip m0.id) v hv

/-- Witness for `analyze_batch_classified_ids_from_input`: a one-message batch
whose response line `1|...` remaps to the original id `"A"`. -/
theorem analyze_batch_classified_ids_from_input_witness :
    (⟨"A", [.REQUEST], [(.NONE, [])], false, 1, "x"⟩ : CompactMsg).id ∈
      ([⟨"A", "ta"⟩] : List InMsg).map InMsg.id :=
  analyze_batch_classified_ids_from_input 40 [⟨"A", "ta"⟩] "1|1|12||0|1|x"
    [⟨"A", [.REQUEST], [(.NONE, [])], false, 1, "x"⟩] [] (by decide)
    ⟨"A", [.REQUEST], [(.NONE, [])], false, 1, "x"⟩ (by decide)

/-- Counterexample to C8 as stated: a two-message batch whose response has a
line only for order id `1`; the result is `ok=true` with `"A"` classified,
yet input id `"B"` appears in neither `classified_messages` nor
`parse_errors`. -/
theorem analyze_batch_missing_id_counterexample :
    analyze_messages_batch_content 40 [⟨"A", "ta"⟩, ⟨"B", "tb"⟩] "1|1|12||0|1|x" =
      .success [⟨"A", [.REQUEST], [(.NONE, [])], false, 1, "x"⟩] [] ∧
    "B" ∈ ([⟨"A", "ta"⟩, ⟨"B", "tb"⟩] : List InMsg).map InMsg.id ∧
    "B" ∉ ([(⟨"A", [.REQUEST], [(.NONE, [])], false, 1, "x"⟩ : CompactMsg)]).map
      CompactMsg.id ∧
    "B" ∉ ([] : List ParseErrEntry).map ParseErrEntry.id := by
  refine ⟨by decide, by decide, by decide, by decide⟩

theorem httpStatusRequeue_iff (sc : Option Int) :
    httpStatusRequeue sc = true ↔ ∃ s, sc = some s ∧ 400 ≤ s ∧ s < 600 := by
  cases sc with
  | none => simp [httpStatusRequeue]
  | some s => simp [httpStatusRequeue]

/-- C2: for a non-empty LLM batch whose analyzer call failed (`ok=false`):
with error kind `http_error` and an integer status in `[400, 600)`, every bus
message of the batch is rejected with requeue and nothing is persisted; on
every other failure, a synthetic `OTHER/NONE/urgency-1` row carrying the
error payload is persisted for each candidate and every bus message is
acked. -/
theorem ingestor_llm_error_handling (llm_batch : List (MsgData × Nat))
    (llm : LlmBatchResult) (hne : llm_batch ≠ []) (hok : llm.ok = false) :
    ((errorTypeOf llm = "http_error" ∧
        ∃ s, llm.status_code = some s ∧ 400 ≤ s ∧ s < 600) →
      consumeLlmBatchStep llm_batch llm =
        llm_batch.map (fun entry => .rejectRequeue entry.2)) ∧
    (¬ (errorTypeOf llm = "http_error" ∧
        ∃ s, llm.status_code = some s ∧ 400 ≤ s ∧ s < 600) →
      (consumeLlmBatchStep llm_batch llm =
        .persist ((llm_batch.map Prod.fst).map (syntheticErrorRow llm)) ::
          llm_batch.map (fun entry => .ack entry.2) ∧
       ∀ row ∈ (llm_batch.map Prod.fst).map (syntheticErrorRow llm),
         row.intents = [.OTHER] ∧ row.domains = [(.NONE, [])] ∧
         row.urgency_score = 1 ∧ row.llm_analysis = .errorPayload llm)) := by
  have hcand : llm_batch.map Prod.fst ≠ [] := by
    intro h
    exact hne (List.map_eq_nil.mp h)
  have hokn : ¬ llm.ok = true := by
    rw [hok]
    simp
  constructor
  · rintro ⟨herr, s, hsc, h4, h6⟩
    have hreq : httpStatusRequeue llm.status_code = true :=
      (httpStatusRequeue_iff llm.status_code).mpr ⟨s, hsc, h4, h6⟩
    have hproc : process_llm_batch (llm_batch.map Prod.fst) llm =
        ([], some ⟨errorTypeOf llm, llm.status_code.getD 0, llmErrorMsg llm⟩) := by
      unfold process_llm_batch
      rw [if_neg hcand, if_neg hokn, if_pos ⟨herr, hreq⟩]
    unfold consumeLlmBatchStep
    rw [hproc]
  · intro hnocond
    have hreqf : ¬ (errorTypeOf llm = "http_error" ∧
        httpStatusRequeue llm.status_code = true) := by
      rintro ⟨herr, hreq⟩
      exact hnocond ⟨herr, (httpStatusRequeue_iff llm.status_code).mp hreq⟩
    have hproc : process_llm_batch (llm_batch.map Prod.fst) llm =
        ((llm_batch.map Prod.fst).map (syntheticErrorRow llm), none) := by
      unfold process_llm_batch
      rw [if_neg hcand, if_neg hokn, if_neg hreqf]
    have hrows : (llm_batch.map Prod.fst).map (syntheticErrorRow llm) ≠ [] := by
      intro h
      exact hcand (List.map_eq_nil.mp h)
    constructor
    · unfold consumeLlmBatchStep
      rw [hproc]
      simp only [if_pos hrows]
      rfl
    · intro row hrow
      obtain ⟨md, _, hmd⟩ := List.mem_map.mp hrow
      rw [← hmd]
      exact ⟨rfl, rfl, rfl, rfl⟩

/-- Witness for `ingestor_llm_error_handling`: one candidate, HTTP 500; the
single bus message is rejected with requeue. -/
theorem ingestor_llm_error_handling_witness :
    consumeLlmBatchStep [(⟨-100555, 42, some "t"⟩, 0)]
      ⟨false, some "http_error", some 500, some "ISE", none, [], [], none⟩ =
      [.rejectRequeue 0] :=
  (ingestor_llm_error_handling [(⟨-100555, 42, some "t"⟩, 0)]
    ⟨false, some "http_error", some 500, some "ISE", none, [], [], none⟩
    (by decide) rfl).1 ⟨by decide, 500, rfl, by decide, by decide⟩

/-- Counterexample to C4 as stated (both divergences, each at a concrete
reachable loop state).  First, `residual_flexibility` in the code counts the
chats not yet in the candidate's *own* set, not the still-unassigned chats:
with chats `[1, 2, 3]`, chat 1 eligible for `["b", "a1"]` and chats 2, 3 for
`["a1", "a2"]`, chat 1 goes to `"b"`; at chat 2 the code's counts are
`a1 = 3` (chat 1, held by `"b"`, still counts) and `a2 = 2`, so the code
picks `"a2"` — while the still-unassigned counts tie at `2`, and under the
claim's definition `"a1"` (smaller id and first candidate) would be chosen.
Second, an exact key tie is broken by position in `eligible[c]`, not by id:
with `eligible[5] = ["b", "a"]` and equal keys the code picks `"b"` although
`"a"` has the smaller id. -/
theorem solver_choice_counterexample :
    (flexSorted = [1, 2, 3] ∧
     flexStateAt2.assigned "b" = {1} ∧ flexStateAt2.assigned "a1" = ∅ ∧
     flexStateAt2.assigned "a2" = ∅ ∧
     flexStateAt2.load "a1" = 0 ∧ flexStateAt2.load "a2" = 0 ∧
     solverCandidates flexEligible (fun _ => none) (fun _ => (⊤ : WithTop ℚ))
       flexStateAt2 2 = ["a1", "a2"] ∧
     residual_flex flexEligible flexSorted flexStateAt2 "a1" = 3 ∧
     residual_flex flexEligible flexSorted flexStateAt2 "a2" = 2 ∧
     (flexSorted.filter (fun cc =>
       decide (cc ∉ flexStateAt2.assigned "b" ∧ cc ∉ flexStateAt2.assigned "a1" ∧
         cc ∉ flexStateAt2.assigned "a2") &&
       decide ("a1" ∈ flexEligible cc))).length = 2 ∧
     (flexSorted.filter (fun cc =>
       decide (cc ∉ flexStateAt2.assigned "b" ∧ cc ∉ flexStateAt2.assigned "a1" ∧
         cc ∉ flexStateAt2.assigned "a2") &&
       decide ("a2" ∈ flexEligible cc))).length = 2 ∧
     "a1".toList < "a2".toList ∧
     chosenFor flexEligible (fun _ => none) (fun _ => (⊤ : WithTop ℚ)) flexSorted
       flexStateAt2 2 = some "a2" ∧
     2 ∈ (solverStep flexEligible (fun _ => none) (fun _ => (⊤ : WithTop ℚ))
       flexSorted flexStateAt2 2).assigned "a2" ∧
     2 ∉ (solverStep flexEligible (fun _ => none) (fun _ => (⊤ : WithTop ℚ))
       flexSorted flexStateAt2 2).assigned "a1") ∧
    (solverCandidates (fun _ => ["b", "a"]) (fun _ => none)
       (fun _ => (⊤ : WithTop ℚ)) ⟨fun _ => 0, fun _ => ∅⟩ 5 = ["b", "a"] ∧
     ((⟨fun _ => 0, fun _ => ∅⟩ : SolverState).load "a",
       residual_flex (fun _ => ["b", "a"])
         (solverSorted [5] (fun _ => ["b", "a"]) (fun _ => none))
         ⟨fun _ => 0, fun _ => ∅⟩ "a") =
     ((⟨fun _ => 0, fun _ => ∅⟩ : SolverState).load "b",
       residual_flex (fun _ => ["b", "a"])
         (solverSorted [5] (fun _ => ["b", "a"]) (fun _ => none))
         ⟨fun _ => 0, fun _ => ∅⟩ "b") ∧
     "a".toList < "b".toList ∧
     chosenFor (fun _ => ["b", "a"]) (fun _ => none) (fun _ => (⊤ : WithTop ℚ))
       (solverSorted [5] (fun _ => ["b", "a"]) (fun _ => none))
       ⟨fun _ => 0, fun _ => ∅⟩ 5 = some "b") := by
  refine ⟨⟨?_, ?_, ?_, ?_, ?_, ?_, ?_, ?_, ?_, ?_, ?_, ?_, ?_, ?_, ?_⟩,
    ?_, ?_, ?_, ?_⟩ <;> decide
